import Mathlib

/-!
Verification development for `dnb.py`, a decoder for the .NET Binary Format
(MS-NRBF).  The Python source is shallowly embedded: the byte source is a
`List Nat` (one entry per octet, each in `0..255`), Python dictionaries are
insertion-ordered association lists, fallible code returns `Except DErr`,
and the mutually recursive record decoder is driven by an explicit fuel
parameter (recursion depth and loop budget of the embedding; every theorem
either quantifies over the fuel or instantiates it large enough for the
concrete input at hand).
-/

/-- Errors raised by the Python code.  Each constructor corresponds to a
concrete `raise` site or runtime exception of `dnb.py`; `outOfFuel` is the
artifact of the fuel-based embedding of unbounded recursion. -/
inductive DErr where
  /-- `EOFError` raised by `Stream.read` when the source is exhausted. -/
  | eof
  /-- `ValueError` raised by an `Enum` constructor on an unrecognised octet. -/
  | valueError
  /-- `KeyError`: missing dictionary key or enum-by-name lookup failure. -/
  | keyError
  /-- `AttributeError`: a method that does not exist is called
      (`f.String()` in `_parse_12` and `_parse_info_systemclass`,
       `f.i32()` in `_parse_int32`). -/
  | attributeError
  /-- `TypeError`: e.g. `self._records[None]` in `crunch`. -/
  | typeError
  /-- `IndexError`: list index out of range. -/
  | indexError
  /-- `Exception('Not Implemented')` raised by `Stream.char`. -/
  | charNotImplemented
  /-- `Exception("Decimal in invalid format")` raised by `Stream.decimal`. -/
  | malformedDecimal
  /-- `UnicodeDecodeError` from `bytes.decode("utf-8")`. -/
  | unicodeError
  /-- `Exception('BinaryArray of type %s is not implemented')`. -/
  | unsupportedArray
  /-- `Exception('Too many NullMultiple records?')` in `_parse_07`. -/
  | arrayOverrun
  /-- `Exception("Unimplemented RecordTypeEnum.parse...")`: record codes
      8, 15, 16, 17, 20, 21, 22 have no registered handler. -/
  | unimplementedRecord
  /-- `Exception("Unimplemented BinaryTypeEnum.parse...")`: binary types
      Object, ObjectArray, StringArray, PrimitiveArray have no value handler. -/
  | unimplementedBinaryType
  /-- Fuel exhaustion of the embedding (no Python counterpart). -/
  | outOfFuel
deriving Repr, DecidableEq

/-- The polymorphic value type manipulated by the decoder: the embedding of
the Python values the decoder builds (scalars, `None`, strings, lists and
insertion-ordered dicts).  `vfloat` keeps the raw little-endian bits of an
IEEE float (the decoder never computes with floats, it only stores them);
`vdec` is a `decimal.Decimal`, carried as its normalized text. -/
inductive Value where
  | vnull
  | vbool (b : Bool)
  | vint (n : Int)
  | vfloat (bits : Nat)
  | vdec (s : String)
  | vstr (s : String)
  | vlist (xs : List Value)
  | vmap (d : List (String × Value))

/-- A Python dictionary with `String` keys: an insertion-ordered
association list. -/
abbrev Dict := List (String × Value)

/-- The byte source: one `Nat` per octet (each in `0..255`). -/
abbrev Bytes := List Nat

/-- Alias for `String` usable inside namespaces that declare a member
called `String` (the enum embeddings below). -/
abbrev Str := String

/-- `d[k]` lookup returning `Option`. -/
def dictGet (d : Dict) (k : String) : Option Value :=
  match d with
  | [] => none
  | (k', v) :: rest => if k' = k then some v else dictGet rest k

/-- `k in d` (Python membership test). -/
def dictContains (d : Dict) (k : String) : Bool :=
  (dictGet d k).isSome

/-- `d[k] = v`: replace the value at `k` in place if present (keeping the
key's insertion position, as Python dicts do), otherwise append. -/
def dictSet (d : Dict) (k : String) (v : Value) : Dict :=
  match d with
  | [] => [(k, v)]
  | (k', v') :: rest =>
    if k' = k then (k', v) :: rest else (k', v') :: dictSet rest k v

/-- `a.update(b)` (Python `dict.update`): fold `dictSet` over `b`'s
entries in order. -/
def dictUpdate (a b : Dict) : Dict :=
  b.foldl (fun acc kv => dictSet acc kv.1 kv.2) a

/-- Lookup in an `Int`-keyed table (`ObjectTable`, `ValueTable`). -/
def intGet {α : Type} (t : List (Int × α)) (k : Int) : Option α :=
  match t with
  | [] => none
  | (k', v) :: rest => if k' = k then some v else intGet rest k

/-- `t[k] = v` for an `Int`-keyed table. -/
def intSet {α : Type} (t : List (Int × α)) (k : Int) (v : α) : List (Int × α) :=
  match t with
  | [] => [(k, v)]
  | (k', v') :: rest =>
    if k' = k then (k', v) :: rest else (k', v') :: intSet rest k v

namespace Stream

/-- `Stream.read(size)`: return exactly `n` octets or raise `EOFError`. -/
def read (n : Nat) (s : Bytes) : Except DErr (Bytes × Bytes) :=
  if n ≤ s.length then .ok (s.take n, s.drop n) else .error .eof

/-- `Stream.byte`: one unsigned octet. -/
def byte (s : Bytes) : Except DErr (Nat × Bytes) :=
  match s with
  | [] => .error .eof
  | b :: rest => .ok (b, rest)

/-- Little-endian value of a byte list. -/
def leNat (bs : Bytes) : Nat :=
  match bs with
  | [] => 0
  | b :: rest => b + 256 * leNat rest

/-- Two's-complement reading of an unsigned `w`-bit value. -/
def toSigned (w : Nat) (n : Nat) : Int :=
  if n < 2 ^ (w - 1) then (n : Int) else (n : Int) - 2 ^ w

/-- `Stream.boolean`: `struct '<?'` — any nonzero octet is `True`. -/
def boolean (s : Bytes) : Except DErr (Bool × Bytes) := do
  let (b, rest) ← byte s
  pure (b ≠ 0, rest)

/-- `Stream.int8`. -/
def int8 (s : Bytes) : Except DErr (Int × Bytes) := do
  let (b, rest) ← byte s
  pure (toSigned 8 b, rest)

/-- `Stream.int16`. -/
def int16 (s : Bytes) : Except DErr (Int × Bytes) := do
  let (bs, rest) ← read 2 s
  pure (toSigned 16 (leNat bs), rest)

/-- `Stream.int32`: little-endian signed 32-bit integer. -/
def int32 (s : Bytes) : Except DErr (Int × Bytes) := do
  let (bs, rest) ← read 4 s
  pure (toSigned 32 (leNat bs), rest)

/-- `Stream.int64`. -/
def int64 (s : Bytes) : Except DErr (Int × Bytes) := do
  let (bs, rest) ← read 8 s
  pure (toSigned 64 (leNat bs), rest)

/-- `Stream.uint16`. -/
def uint16 (s : Bytes) : Except DErr (Int × Bytes) := do
  let (bs, rest) ← read 2 s
  pure ((leNat bs : Int), rest)

/-- `Stream.uint32`. -/
def uint32 (s : Bytes) : Except DErr (Int × Bytes) := do
  let (bs, rest) ← read 4 s
  pure ((leNat bs : Int), rest)

/-- `Stream.uint64`. -/
def uint64 (s : Bytes) : Except DErr (Int × Bytes) := do
  let (bs, rest) ← read 8 s
  pure ((leNat bs : Int), rest)

/-- `Stream.char`: `raise Exception('Not Implemented')`. -/
def char (_s : Bytes) : Except DErr (Value × Bytes) :=
  .error .charNotImplemented

/-- `Stream.double`: 8 octets, kept as raw bits. -/
def double (s : Bytes) : Except DErr (Value × Bytes) := do
  let (bs, rest) ← read 8 s
  pure (.vfloat (leNat bs), rest)

/-- `Stream.single`: 4 octets, kept as raw bits. -/
def single (s : Bytes) : Except DErr (Value × Bytes) := do
  let (bs, rest) ← read 4 s
  pure (.vfloat (leNat bs), rest)

/-- `Stream.timespan`: a signed 64-bit tick count, exposed verbatim. -/
def timespan (s : Bytes) : Except DErr (Int × Bytes) :=
  int64 s

/-- `Stream.datetime`: read 64 bits; the low two bits are a kind tag
(`0x01` UTC checked first, else `0x02` Local, else `None`); `ticks` is the
signed value with the two low bits cleared (`ticks & ~0x03`, which for a
Python integer equals `t - (t mod 4)` with a non-negative remainder). -/
def datetime (s : Bytes) : Except DErr (Value × Bytes) := do
  let (t, rest) ← int64 s
  let kind : Value :=
    if t.emod 2 = 1 then .vstr "UTC"
    else if t.emod 4 ≥ 2 then .vstr "Local"
    else .vnull
  pure (.vmap [("Kind", kind), ("ticks", .vint (t - t.emod 4))], rest)

/-- The accumulator loop of `Stream.string`'s length prefix: 7-bit chunks
in little-endian order, high bit = "more follows".  The source's FIXME
("Must not exceed six bytes read") is not implemented: the loop keeps
reading continuation bytes until an octet without the high bit, or until
`EOFError`. -/
def stringLengthAux (shift acc : Nat) (s : Bytes) : Except DErr (Nat × Bytes) :=
  match s with
  | [] => .error .eof
  | b :: rest =>
    let acc' := acc + (b % 128) * 2 ^ shift
    if b % 256 < 128 then .ok (acc', rest)
    else stringLengthAux (shift + 7) acc' rest

/-- Strict UTF-8 decoding of the payload octets (the semantics of Python's
`bytes.decode("utf-8")`: continuation bytes in `0x80..0xBF`, no overlong
forms, no surrogates, maximum `U+10FFFF`). -/
def decodeUtf8 (bs : Bytes) : Except DErr (List Char) :=
  match bs with
  | [] => .ok []
  | b :: rest =>
    if b < 0x80 then do
      let cs ← decodeUtf8 rest
      .ok (Char.ofNat b :: cs)
    else if 0xC2 ≤ b ∧ b ≤ 0xDF then
      match rest with
      | c1 :: rest' =>
        if 0x80 ≤ c1 ∧ c1 ≤ 0xBF then do
          let cs ← decodeUtf8 rest'
          .ok (Char.ofNat ((b - 0xC0) * 64 + (c1 - 0x80)) :: cs)
        else .error .unicodeError
      | _ => .error .unicodeError
    else if 0xE0 ≤ b ∧ b ≤ 0xEF then
      match rest with
      | c1 :: c2 :: rest' =>
        let lo1 := if b = 0xE0 then 0xA0 else 0x80
        let hi1 := if b = 0xED then 0x9F else 0xBF
        if (lo1 ≤ c1 ∧ c1 ≤ hi1) ∧ (0x80 ≤ c2 ∧ c2 ≤ 0xBF) then do
          let cs ← decodeUtf8 rest'
          .ok (Char.ofNat ((b - 0xE0) * 4096 + (c1 - 0x80) * 64 + (c2 - 0x80)) :: cs)
        else .error .unicodeError
      | _ => .error .unicodeError
    else if 0xF0 ≤ b ∧ b ≤ 0xF4 then
      match rest with
      | c1 :: c2 :: c3 :: rest' =>
        let lo1 := if b = 0xF0 then 0x90 else 0x80
        let hi1 := if b = 0xF4 then 0x8F else 0xBF
        if (lo1 ≤ c1 ∧ c1 ≤ hi1) ∧ (0x80 ≤ c2 ∧ c2 ≤ 0xBF) ∧ (0x80 ≤ c3 ∧ c3 ≤ 0xBF) then do
          let cs ← decodeUtf8 rest'
          .ok (Char.ofNat ((b - 0xF0) * 262144 + (c1 - 0x80) * 4096 + (c2 - 0x80) * 64 + (c3 - 0x80)) :: cs)
        else .error .unicodeError
      | _ => .error .unicodeError
    else .error .unicodeError

/-- `Stream.string`: variable-width length prefix followed by that many
payload octets, decoded as UTF-8. -/
def string (s : Bytes) : Except DErr (String × Bytes) := do
  let (len, s1) ← stringLengthAux 0 0 s
  let (raw, s2) ← read len s1
  let cs ← decodeUtf8 raw
  pure (String.mk cs, s2)

end Stream

/-- ASCII digit test (`[0-9]` in the decimal regex). -/
def isDig (c : Char) : Bool := '0' ≤ c && c ≤ '9'

/-- End-of-match test of Python's `$` outside MULTILINE mode: it matches at
the end of the string, or just before a newline that is the last
character. -/
def endOkPy : List Char → Bool
  | [] => true
  | c :: t => c == '\n' && t.isEmpty

/-- End-of-match test of a fully anchored `$`: only the end of the string. -/
def endOkSpec (r : List Char) : Bool := r.isEmpty

/-- The optional leading sign group `(-)?` of the pattern. -/
def dropSign (cs : List Char) : List Char :=
  match cs with
  | c :: t => if c = '-' then t else c :: t
  | [] => []

/-- After the mandatory digit run: either the optional greedy fractional
group `\.[0-9]+` followed by the end test, or (the regex backtracking on a
failed or unmatched group) the end test at the point after the digits. -/
def fracCheck (endOk : List Char → Bool) (r1 : List Char) : Bool :=
  match r1 with
  | c :: t =>
    if c = '.' then
      (!(t.takeWhile isDig).isEmpty && endOk (t.dropWhile isDig)) || endOk (c :: t)
    else endOk (c :: t)
  | [] => endOk []

/-- The shared matcher core for the pattern `^(-)?([0-9]+)(\.([0-9]+))?$`,
parameterised by the end test: optional sign, a maximal (greedy) run of
digits — at least one — then `fracCheck`. -/
def decAccept (endOk : List Char → Bool) (cs : List Char) : Bool :=
  let cs1 := dropSign cs
  if (cs1.takeWhile isDig).isEmpty then false
  else fracCheck endOk (cs1.dropWhile isDig)

/-- Truthiness of `re.match(r"^(-)?([0-9]+)(\.([0-9]+))?$", d)` as executed
by `Stream.decimal` — with Python's `$` semantics (`endOkPy`), which also
accepts a single newline at the very end of the text. -/
def reMatchDecimal (s : String) : Bool := decAccept endOkPy s.data

/-- The spec's acceptance condition, stated from the spec's words: the text
matches the regex `^-?\d+(\.\d+)?$` under standard full-string anchoring
(no trailing-newline allowance). -/
def specDecimalRegexMatch (s : String) : Bool := decAccept endOkSpec s.data

/-- `decimal.Decimal(d)` applied to a text accepted by the code's regex
(the only shapes that reach it): surrounding whitespace (here at most one
trailing newline) is removed, the sign is kept, leading zeros of the
integer part are dropped down to a single digit, and the fractional part
is kept verbatim.  The result is carried as the Decimal's text. -/
def pyDecimal (s : String) : String :=
  let cs := s.data.filter (fun c => c ≠ '\n')
  let sgn : Bool := match cs with | '-' :: _ => true | _ => false
  let cs1 := match cs with | '-' :: t => t | _ => cs
  let ip := cs1.takeWhile isDig
  let fp := cs1.dropWhile isDig
  let ip1 := ip.dropWhile (fun c => c = '0')
  let ip2 := if ip1.isEmpty then ['0'] else ip1
  String.mk ((if sgn then ['-'] else []) ++ ip2 ++ fp)

namespace Stream

/-- `Stream.decimal`: read a length-prefixed string, validate it against
the regex, and return the `decimal.Decimal` of the text; on a failed match
raise `Exception("Decimal in invalid format")`. -/
def decimal (s : Bytes) : Except DErr (Value × Bytes) := do
  let (d, rest) ← string s
  if reMatchDecimal d then pure (.vdec (pyDecimal d), rest)
  else .error .malformedDecimal

/-- `Stream.ClassTypeInfo`: `{TypeName: string, LibraryId: i32}`. -/
def ClassTypeInfo (s : Bytes) : Except DErr (Dict × Bytes) := do
  let (tn, s1) ← string s
  let (lid, s2) ← int32 s1
  pure ([("TypeName", .vstr tn), ("LibraryId", .vint lid)], s2)

end Stream

/-- 2.1.2.3 `PrimitiveTypeEnumeration`. -/
inductive PrimitiveTypeEnum where
  | Boolean | Byte | Char | Decimal | Double | Int16 | Int32 | Int64 | SByte
  | Single | TimeSpan | DateTime | UInt16 | UInt32 | UInt64 | Null | String
deriving Repr, DecidableEq

namespace PrimitiveTypeEnum

/-- `Enum.name` of a `PrimitiveTypeEnum` member. -/
def name : PrimitiveTypeEnum → Str
  | .Boolean => "Boolean" | .Byte => "Byte" | .Char => "Char"
  | .Decimal => "Decimal" | .Double => "Double" | .Int16 => "Int16"
  | .Int32 => "Int32" | .Int64 => "Int64" | .SByte => "SByte"
  | .Single => "Single" | .TimeSpan => "TimeSpan" | .DateTime => "DateTime"
  | .UInt16 => "UInt16" | .UInt32 => "UInt32" | .UInt64 => "UInt64"
  | .Null => "Null" | .String => "String"

/-- `PrimitiveTypeEnum(octet)`: `ValueError` on an unrecognised code
(code 4 is reserved and unused). -/
def fromByte : Nat → Except DErr PrimitiveTypeEnum
  | 1 => .ok .Boolean | 2 => .ok .Byte | 3 => .ok .Char | 5 => .ok .Decimal
  | 6 => .ok .Double | 7 => .ok .Int16 | 8 => .ok .Int32 | 9 => .ok .Int64
  | 10 => .ok .SByte | 11 => .ok .Single | 12 => .ok .TimeSpan
  | 13 => .ok .DateTime | 14 => .ok .UInt16 | 15 => .ok .UInt32
  | 16 => .ok .UInt64 | 17 => .ok .Null | 18 => .ok .String
  | _ => .error .valueError

/-- `PrimitiveTypeEnum[name]`: lookup by member name, `KeyError` when the
name is not a member. -/
def fromName (s : Str) : Except DErr PrimitiveTypeEnum :=
  if s = "Boolean" then .ok .Boolean else if s = "Byte" then .ok .Byte
  else if s = "Char" then .ok .Char else if s = "Decimal" then .ok .Decimal
  else if s = "Double" then .ok .Double else if s = "Int16" then .ok .Int16
  else if s = "Int32" then .ok .Int32 else if s = "Int64" then .ok .Int64
  else if s = "SByte" then .ok .SByte else if s = "Single" then .ok .Single
  else if s = "TimeSpan" then .ok .TimeSpan
  else if s = "DateTime" then .ok .DateTime
  else if s = "UInt16" then .ok .UInt16 else if s = "UInt32" then .ok .UInt32
  else if s = "UInt64" then .ok .UInt64 else if s = "Null" then .ok .Null
  else if s = "String" then .ok .String
  else .error .keyError

/-- `PrimitiveTypeEnum.parse` value dispatch.  Note `Int32` calls
`f.i32()`, a method `Stream` does not define, hence `AttributeError`;
`Char` raises `Not Implemented`; `Null` reads nothing and yields `None`. -/
def parse : PrimitiveTypeEnum → Bytes → Except DErr (Value × Bytes)
  | .Boolean, s => do let (b, r) ← Stream.boolean s; pure (.vbool b, r)
  | .Byte, s => do let (b, r) ← Stream.byte s; pure (.vint b, r)
  | .Char, s => Stream.char s
  | .Decimal, s => Stream.decimal s
  | .Double, s => Stream.double s
  | .Int16, s => do let (n, r) ← Stream.int16 s; pure (.vint n, r)
  | .Int32, _s => .error .attributeError
  | .Int64, s => do let (n, r) ← Stream.int64 s; pure (.vint n, r)
  | .SByte, s => do let (n, r) ← Stream.int8 s; pure (.vint n, r)
  | .Single, s => Stream.single s
  | .TimeSpan, s => do let (n, r) ← Stream.timespan s; pure (.vint n, r)
  | .DateTime, s => Stream.datetime s
  | .UInt16, s => do let (n, r) ← Stream.uint16 s; pure (.vint n, r)
  | .UInt32, s => do let (n, r) ← Stream.uint32 s; pure (.vint n, r)
  | .UInt64, s => do let (n, r) ← Stream.uint64 s; pure (.vint n, r)
  | .Null, s => .ok (.vnull, s)
  | .String, s => do let (t, r) ← Stream.string s; pure (.vstr t, r)

end PrimitiveTypeEnum

/-- 2.1.2.2 `BinaryTypeEnumeration`. -/
inductive BinaryTypeEnum where
  | Primitive | String | Object | SystemClass | Class
  | ObjectArray | StringArray | PrimitiveArray
deriving Repr, DecidableEq

namespace BinaryTypeEnum

/-- `Enum.name` of a `BinaryTypeEnum` member. -/
def name : BinaryTypeEnum → Str
  | .Primitive => "Primitive" | .String => "String" | .Object => "Object"
  | .SystemClass => "SystemClass" | .Class => "Class"
  | .ObjectArray => "ObjectArray" | .StringArray => "StringArray"
  | .PrimitiveArray => "PrimitiveArray"

/-- `BinaryTypeEnum(octet)`: `ValueError` outside `0..7`. -/
def fromByte : Nat → Except DErr BinaryTypeEnum
  | 0 => .ok .Primitive | 1 => .ok .String | 2 => .ok .Object
  | 3 => .ok .SystemClass | 4 => .ok .Class | 5 => .ok .ObjectArray
  | 6 => .ok .StringArray | 7 => .ok .PrimitiveArray
  | _ => .error .valueError

/-- `BinaryTypeEnum[name]`: lookup by member name, `KeyError` otherwise. -/
def fromName (s : Str) : Except DErr BinaryTypeEnum :=
  if s = "Primitive" then .ok .Primitive
  else if s = "String" then .ok .String
  else if s = "Object" then .ok .Object
  else if s = "SystemClass" then .ok .SystemClass
  else if s = "Class" then .ok .Class
  else if s = "ObjectArray" then .ok .ObjectArray
  else if s = "StringArray" then .ok .StringArray
  else if s = "PrimitiveArray" then .ok .PrimitiveArray
  else .error .keyError

/-- `BinaryTypeEnum.parse_info` AdditionalInfo dispatch.  `SystemClass`
calls `f.String()`, a method `Stream` does not define, hence
`AttributeError`. -/
def parseInfo : BinaryTypeEnum → Bytes → Except DErr (Value × Bytes)
  | .Primitive, s => do
    let (b, s1) ← Stream.byte s
    let pt ← PrimitiveTypeEnum.fromByte b
    pure (.vstr pt.name, s1)
  | .String, s => .ok (.vnull, s)
  | .Object, s => .ok (.vnull, s)
  | .SystemClass, _s => .error .attributeError
  | .Class, s => do
    let (d, s1) ← Stream.ClassTypeInfo s
    pure (.vmap d, s1)
  | .ObjectArray, s => .ok (.vnull, s)
  | .StringArray, s => .ok (.vnull, s)
  | .PrimitiveArray, s => do
    let (b, s1) ← Stream.byte s
    let pt ← PrimitiveTypeEnum.fromByte b
    pure (.vstr pt.name, s1)

end BinaryTypeEnum

/-- 2.4.1.1 `BinaryArrayTypeEnumeration`. -/
inductive BinaryArrayTypeEnum where
  | Single | Jagged | Rectangular | SingleOffset | JaggedOffset | RectangularOffset
deriving Repr, DecidableEq

namespace BinaryArrayTypeEnum

/-- `Enum.name` of a `BinaryArrayTypeEnum` member. -/
def name : BinaryArrayTypeEnum → String
  | .Single => "Single" | .Jagged => "Jagged" | .Rectangular => "Rectangular"
  | .SingleOffset => "SingleOffset" | .JaggedOffset => "JaggedOffset"
  | .RectangularOffset => "RectangularOffset"

/-- `BinaryArrayTypeEnum(octet)`: `ValueError` outside `0..5`. -/
def fromByte : Nat → Except DErr BinaryArrayTypeEnum
  | 0 => .ok .Single | 1 => .ok .Jagged | 2 => .ok .Rectangular
  | 3 => .ok .SingleOffset | 4 => .ok .JaggedOffset | 5 => .ok .RectangularOffset
  | _ => .error .valueError

/-- `has_bounds`: true exactly when the member name contains `Offset`. -/
def hasBounds : BinaryArrayTypeEnum → Bool
  | .Single => false | .Jagged => false | .Rectangular => false
  | .SingleOffset => true | .JaggedOffset => true | .RectangularOffset => true

end BinaryArrayTypeEnum

/-- 2.1.2.1 `RecordTypeEnumeration` (codes 18 and 19 are not members). -/
inductive RecordTypeEnum where
  | SerializedStreamHeader | ClassWithId | SystemClassWithMembers
  | ClassWithMembers | SystemClassWithMembersAndTypes | ClassWithMembersAndTypes
  | BinaryObjectString | BinaryArray | MemberPrimitiveTyped | MemberReference
  | ObjectNull | MessageEnd | BinaryLibrary | ObjectNullMultiple256
  | ObjectNullMultiple | ArraySinglePrimitive | ArraySingleObject
  | ArraySingleString | ArrayOfType | MethodCall | MethodReturn
deriving Repr, DecidableEq

namespace RecordTypeEnum

/-- `Enum.name` of a `RecordTypeEnum` member. -/
def name : RecordTypeEnum → String
  | .SerializedStreamHeader => "SerializedStreamHeader"
  | .ClassWithId => "ClassWithId"
  | .SystemClassWithMembers => "SystemClassWithMembers"
  | .ClassWithMembers => "ClassWithMembers"
  | .SystemClassWithMembersAndTypes => "SystemClassWithMembersAndTypes"
  | .ClassWithMembersAndTypes => "ClassWithMembersAndTypes"
  | .BinaryObjectString => "BinaryObjectString"
  | .BinaryArray => "BinaryArray"
  | .MemberPrimitiveTyped => "MemberPrimitiveTyped"
  | .MemberReference => "MemberReference"
  | .ObjectNull => "ObjectNull"
  | .MessageEnd => "MessageEnd"
  | .BinaryLibrary => "BinaryLibrary"
  | .ObjectNullMultiple256 => "ObjectNullMultiple256"
  | .ObjectNullMultiple => "ObjectNullMultiple"
  | .ArraySinglePrimitive => "ArraySinglePrimitive"
  | .ArraySingleObject => "ArraySingleObject"
  | .ArraySingleString => "ArraySingleString"
  | .ArrayOfType => "ArrayOfType"
  | .MethodCall => "MethodCall"
  | .MethodReturn => "MethodReturn"

/-- `RecordTypeEnum(octet)`: `ValueError` on 18, 19 and anything above 22. -/
def fromByte : Nat → Except DErr RecordTypeEnum
  | 0 => .ok .SerializedStreamHeader | 1 => .ok .ClassWithId
  | 2 => .ok .SystemClassWithMembers | 3 => .ok .ClassWithMembers
  | 4 => .ok .SystemClassWithMembersAndTypes | 5 => .ok .ClassWithMembersAndTypes
  | 6 => .ok .BinaryObjectString | 7 => .ok .BinaryArray
  | 8 => .ok .MemberPrimitiveTyped | 9 => .ok .MemberReference
  | 10 => .ok .ObjectNull | 11 => .ok .MessageEnd
  | 12 => .ok .BinaryLibrary | 13 => .ok .ObjectNullMultiple256
  | 14 => .ok .ObjectNullMultiple | 15 => .ok .ArraySinglePrimitive
  | 16 => .ok .ArraySingleObject | 17 => .ok .ArraySingleString
  | 20 => .ok .ArrayOfType | 21 => .ok .MethodCall | 22 => .ok .MethodReturn
  | _ => .error .valueError

end RecordTypeEnum

/-- The member-name loop of `Stream.ClassInfo`. -/
def readStrings (n : Nat) (s : Bytes) : Except DErr (List Value × Bytes) :=
  match n with
  | 0 => .ok ([], s)
  | n + 1 => do
    let (t, s1) ← Stream.string s
    let (ts, s2) ← readStrings n s1
    pure (.vstr t :: ts, s2)

namespace Stream

/-- 2.3.1.1 `Stream.ClassInfo`:
`{ObjectId: i32, Name: string, MemberCount: i32, MemberNames: [string]}`.
A negative `MemberCount` makes `range` empty, so no names are read. -/
def ClassInfo (s : Bytes) : Except DErr (Dict × Bytes) := do
  let (oid, s1) ← int32 s
  let (nm, s2) ← string s1
  let (cnt, s3) ← int32 s2
  let (names, s4) ← readStrings cnt.toNat s3
  pure ([("ObjectId", .vint oid), ("Name", .vstr nm),
         ("MemberCount", .vint cnt), ("MemberNames", .vlist names)], s4)

end Stream

/-- First phase of `Stream.MemberTypeInfo`: read `count` binary-type tags. -/
def readBTEnums (n : Nat) (s : Bytes) : Except DErr (List BinaryTypeEnum × Bytes) :=
  match n with
  | 0 => .ok ([], s)
  | n + 1 => do
    let (b, s1) ← Stream.byte s
    let bt ← BinaryTypeEnum.fromByte b
    let (bts, s2) ← readBTEnums n s1
    pure (bt :: bts, s2)

/-- Second phase of `Stream.MemberTypeInfo`: one AdditionalInfo per tag,
in the same order. -/
def readBTInfos (bts : List BinaryTypeEnum) (s : Bytes) : Except DErr (List Value × Bytes) :=
  match bts with
  | [] => .ok ([], s)
  | bt :: rest => do
    let (info, s1) ← bt.parseInfo s
    let (infos, s2) ← readBTInfos rest s1
    pure (info :: infos, s2)

namespace Stream

/-- 2.3.1.2 `Stream.MemberTypeInfo(count)`: tags first, then infos. -/
def MemberTypeInfo (count : Int) (s : Bytes) : Except DErr (Dict × Bytes) := do
  let (bts, s1) ← readBTEnums count.toNat s
  let (infos, s2) ← readBTInfos bts s1
  pure ([("BinaryTypeEnums", .vlist (bts.map (fun b => .vstr b.name))),
         ("AdditionalInfos", .vlist infos)], s2)

end Stream

/-- The decoder state of a `DNBinary` instance: the three decode-time
tables, the top-level record list, the pruned set, and the two options
(`strict = not best_effort`, `expand`). -/
structure DNB where
  objects : List (Int × Dict)
  values : List (Int × Value)
  objrefs : List (Int × Dict)
  records : List Dict
  pruned : List Int
  strict : Bool
  expand : Bool

/-- A fresh decoder (`DNBinary.__init__`). -/
def DNB.init (strict expand : Bool) : DNB :=
  ⟨[], [], [], [], [], strict, expand⟩

/-- `DNBinary._registerObject(ref, obj, values=None)`:
`self._objects[ref] = dict(obj)` and `self._values[ref] = values`
(Python `None` is embedded as `vnull`).  There is no duplicate check: an
existing entry under `ref` is silently overwritten. -/
def registerObject (dnb : DNB) (ref : Int) (obj : Dict) (vals : Value) : DNB :=
  { dnb with
    objects := intSet dnb.objects ref obj
    values := intSet dnb.values ref vals }

/-- `DNBinary._fetchObject`: `self._objects[ref]`, `KeyError` if absent. -/
def fetchObject (dnb : DNB) (ref : Int) : Except DErr Dict :=
  match intGet dnb.objects ref with
  | some d => .ok d
  | none => .error .keyError

/-- `DNBinary._fetchValues`: the stored payload when present, otherwise
the implicit `None` of the `if`-without-`else`. -/
def fetchValues (dnb : DNB) (ref : Int) : Value :=
  (intGet dnb.values ref).getD .vnull

/-- `DNBinary._registerReference`: append `(ref, obj)` to ReferenceList. -/
def registerReference (dnb : DNB) (ref : Int) (obj : Dict) : DNB :=
  { dnb with objrefs := dnb.objrefs ++ [(ref, obj)] }

/-- `record_id(record)`: the record's `ObjectId`, else
`ClassInfo.ObjectId`, else `ArrayInfo.ObjectId`, else `None`.  Records
produced by this decoder always carry integer ids and dict-valued
`ClassInfo`, so the non-conforming shapes (which an integer id never
equals) are collapsed to `none`. -/
def recordId (r : Dict) : Option Int :=
  match dictGet r "ObjectId" with
  | some (.vint n) => some n
  | some _ => none
  | none =>
    match dictGet r "ClassInfo" with
    | some (.vmap ci) =>
      (match dictGet ci "ObjectId" with
       | some (.vint n) => some n
       | _ => none)
    | some _ => none
    | none =>
      match dictGet r "ArrayInfo" with
      | some (.vmap ai) =>
        (match dictGet ai "ObjectId" with
         | some (.vint n) => some n
         | _ => none)
      | _ => none

/-- `list[i]` with `IndexError` out of range. -/
def pyIndex {α : Type} (xs : List α) (i : Nat) : Except DErr α :=
  match xs.get? i with
  | some x => .ok x
  | none => .error .indexError

/-- The type of the nested-record entry point handed to the per-variant
handlers (one recursion level of `Stream.record`). -/
abbrev RecParser := DNB → Bytes → Except DErr (Dict × DNB × Bytes)

/-- `BinaryTypeEnum.parse` value dispatch: `Primitive` looks the stored
type name up (`PrimitiveTypeEnum[info]`) and reads that primitive;
`String`, `SystemClass` and `Class` read one nested record; the remaining
variants have no registered handler. -/
def btParse (rec : RecParser) (bt : BinaryTypeEnum) (info : Value) (dnb : DNB)
    (s : Bytes) : Except DErr (Value × DNB × Bytes) :=
  match bt with
  | .Primitive =>
    match info with
    | .vstr n => do
      let pt ← PrimitiveTypeEnum.fromName n
      let (v, s1) ← pt.parse s
      pure (v, dnb, s1)
    | _ => .error .keyError
  | .String => do
    let (d, dnb1, s1) ← rec dnb s
    pure (.vmap d, dnb1, s1)
  | .SystemClass => do
    let (d, dnb1, s1) ← rec dnb s
    pure (.vmap d, dnb1, s1)
  | .Class => do
    let (d, dnb1, s1) ← rec dnb s
    pure (.vmap d, dnb1, s1)
  | _ => .error .unimplementedBinaryType

/-- The loop body of `RecordTypeEnum.__val_common`: the `classRecord`
dictionary lookups happen inside the loop, so with zero members nothing is
ever looked up (exactly as in the source). -/
def valCommonAux (rec : RecParser) (reference : Dict) :
    Nat → Nat → DNB → Bytes → Except DErr (List Value × DNB × Bytes)
  | _, 0, dnb, s => .ok ([], dnb, s)
  | i, n + 1, dnb, s => do
    let mti ← (match dictGet reference "MemberTypeInfo" with
               | some (.vmap m) => Except.ok m
               | some _ => Except.error .typeError
               | none => Except.error .keyError)
    let btes ← (match dictGet mti "BinaryTypeEnums" with
                | some (.vlist xs) => Except.ok xs
                | some _ => Except.error .typeError
                | none => Except.error .keyError)
    let bteV ← pyIndex btes i
    let bteName ← (match bteV with
                   | .vstr t => Except.ok t
                   | _ => Except.error .keyError)
    let bt ← BinaryTypeEnum.fromName bteName
    let infos ← (match dictGet mti "AdditionalInfos" with
                 | some (.vlist xs) => Except.ok xs
                 | some _ => Except.error .typeError
                 | none => Except.error .keyError)
    let info ← pyIndex infos i
    let (v, dnb1, s1) ← btParse rec bt info dnb s
    let (vs, dnb2, s2) ← valCommonAux rec reference (i + 1) n dnb1 s1
    pure (v :: vs, dnb2, s2)

/-- `RecordTypeEnum.__val_common`: one decoded value per declared member,
driven by `classRecord['ClassInfo']['MemberCount']`. -/
def valCommon (rec : RecParser) (reference : Dict) (dnb : DNB) (s : Bytes) :
    Except DErr (List Value × DNB × Bytes) := do
  let count ← (match dictGet reference "ClassInfo" with
               | some (.vmap ci) =>
                 (match dictGet ci "MemberCount" with
                  | some (.vint n) => Except.ok n
                  | some _ => Except.error .typeError
                  | none => Except.error .keyError)
               | some _ => Except.error .typeError
               | none => Except.error .keyError)
  valCommonAux rec reference 0 count.toNat dnb s

/-- `RecordTypeEnum.__class_common`: decode member values against
`reference` (falling back to the record itself when the passed reference
is `None` or falsy, i.e. an empty dict), register the record — at this
point still without a `Values` key — together with the value list, then
attach `Values` to the returned record. -/
def classCommon (rec : RecParser) (objid : Int) (record : Dict)
    (reference : Option Dict) (dnb : DNB) (s : Bytes) :
    Except DErr (Dict × DNB × Bytes) := do
  let ref := match reference with
             | none => record
             | some r => if r.isEmpty then record else r
  let (vals, dnb1, s1) ← valCommon rec ref dnb s
  let dnb2 := registerObject dnb1 objid record (.vlist vals)
  pure (dictSet record "Values" (.vlist vals), dnb2, s1)

/-- `_parse_00` SerializedStreamHeader. -/
def parse00 (dnb : DNB) (s : Bytes) : Except DErr (Dict × DNB × Bytes) := do
  let (rootId, s1) ← Stream.int32 s
  let (headerId, s2) ← Stream.int32 s1
  let (major, s3) ← Stream.int32 s2
  let (minor, s4) ← Stream.int32 s3
  pure ([("RootId", .vint rootId), ("HeaderId", .vint headerId),
         ("MajorVersion", .vint major), ("MinorVersion", .vint minor)], dnb, s4)

/-- `_parse_01` ClassWithId: fetch the metadata snapshot (`KeyError` when
the MetadataId was never registered), optionally merge it into the record
(`expand`), and decode member values against the fetched metadata. -/
def parse01 (rec : RecParser) (dnb : DNB) (s : Bytes) :
    Except DErr (Dict × DNB × Bytes) := do
  let (oid, s1) ← Stream.int32 s
  let (mid, s2) ← Stream.int32 s1
  let fetch ← fetchObject dnb mid
  let record0 : Dict := [("ObjectId", .vint oid), ("MetadataId", .vint mid)]
  let record := if dnb.expand then dictUpdate record0 fetch else record0
  let objid ← (match dictGet record "ObjectId" with
               | some (.vint n) => Except.ok n
               | some _ => Except.error .typeError
               | none => Except.error .keyError)
  classCommon rec objid record (some fetch) dnb s2

/-- `_parse_02` SystemClassWithMembers: ClassInfo only, registered with the
default `values=None`. -/
def parse02 (dnb : DNB) (s : Bytes) : Except DErr (Dict × DNB × Bytes) := do
  let (ci, s1) ← Stream.ClassInfo s
  let record : Dict := [("ClassInfo", .vmap ci)]
  let objid ← (match dictGet ci "ObjectId" with
               | some (.vint n) => Except.ok n
               | some _ => Except.error .typeError
               | none => Except.error .keyError)
  pure (record, registerObject dnb objid record .vnull, s1)

/-- `_parse_03` ClassWithMembers: ClassInfo plus LibraryId. -/
def parse03 (dnb : DNB) (s : Bytes) : Except DErr (Dict × DNB × Bytes) := do
  let (ci, s1) ← Stream.ClassInfo s
  let (libId, s2) ← Stream.int32 s1
  let record : Dict := [("ClassInfo", .vmap ci), ("LibraryId", .vint libId)]
  let objid ← (match dictGet ci "ObjectId" with
               | some (.vint n) => Except.ok n
               | some _ => Except.error .typeError
               | none => Except.error .keyError)
  pure (record, registerObject dnb objid record .vnull, s2)

/-- `RecordTypeEnum.__mat_common`: ClassInfo, MemberTypeInfo, LibraryId
only for the non-system variant (read after MemberTypeInfo, stored after
it in the record), then `__class_common` with the record as its own
schema. -/
def matCommon (rec : RecParser) (system : Bool) (dnb : DNB) (s : Bytes) :
    Except DErr (Dict × DNB × Bytes) := do
  let (ci, s1) ← Stream.ClassInfo s
  let count ← (match dictGet ci "MemberCount" with
               | some (.vint n) => Except.ok n
               | some _ => Except.error .typeError
               | none => Except.error .keyError)
  let (mti, s2) ← Stream.MemberTypeInfo count s1
  if system then
    let record : Dict := [("ClassInfo", .vmap ci), ("MemberTypeInfo", .vmap mti)]
    let objid ← (match dictGet ci "ObjectId" with
                 | some (.vint n) => Except.ok n
                 | some _ => Except.error .typeError
                 | none => Except.error .keyError)
    classCommon rec objid record none dnb s2
  else do
    let (libId, s3) ← Stream.int32 s2
    let record : Dict := [("ClassInfo", .vmap ci), ("MemberTypeInfo", .vmap mti),
                          ("LibraryId", .vint libId)]
    let objid ← (match dictGet ci "ObjectId" with
                 | some (.vint n) => Except.ok n
                 | some _ => Except.error .typeError
                 | none => Except.error .keyError)
    classCommon rec objid record none dnb s3

/-- `_parse_06` BinaryObjectString: the record is registered — complete
with its scalar `Value` — and the scalar is stored in ValueTable. -/
def parse06 (dnb : DNB) (s : Bytes) : Except DErr (Dict × DNB × Bytes) := do
  let (oid, s1) ← Stream.int32 s
  let (v, s2) ← Stream.string s1
  let record : Dict := [("ObjectId", .vint oid), ("Value", .vstr v)]
  pure (record, registerObject dnb oid record (.vstr v), s2)

/-- The `i32` loops of `_parse_07` for Lengths and LowerBounds. -/
def readInt32s (n : Nat) (s : Bytes) : Except DErr (List Int × Bytes) :=
  match n with
  | 0 => .ok ([], s)
  | n + 1 => do
    let (v, s1) ← Stream.int32 s
    let (vs, s2) ← readInt32s n s1
    pure (v :: vs, s2)

/-- The run-length branch of the cell loop of `_parse_07`, keyed on the
looked-up `NullCount`: a present integer count advances the counter by
that count, an absent key by one; the overflow check
(`Too many NullMultiple records?`) runs before the value is appended. -/
def nullCountStep (total : Int)
    (readNext : Int → List Value → DNB → Bytes → Except DErr (List Value × DNB × Bytes))
    (i : Int) (acc : List Value) (d : Dict) (dnb1 : DNB) (s1 : Bytes) :
    Option Value → Except DErr (List Value × DNB × Bytes)
  | some (Value.vint n) =>
    if i + n > total then .error .arrayOverrun
    else readNext (i + n) (acc ++ [Value.vmap d]) dnb1 s1
  | some _ => .error .typeError
  | none =>
    if i + 1 > total then .error .arrayOverrun
    else readNext (i + 1) (acc ++ [Value.vmap d]) dnb1 s1

/-- The `isinstance(r, dict)` dispatch of the cell loop: a mapping goes
through `nullCountStep`; any other value is neither counted nor stored and
the loop just continues. -/
def cellStep (total : Int)
    (readNext : Int → List Value → DNB → Bytes → Except DErr (List Value × DNB × Bytes))
    (i : Int) (acc : List Value) :
    Value → DNB → Bytes → Except DErr (List Value × DNB × Bytes)
  | Value.vmap d, dnb1, s1 =>
    nullCountStep total readNext i acc d dnb1 s1 (dictGet d "NullCount")
  | _, dnb1, s1 => readNext i acc dnb1 s1

/-- The `while i < l` cell loop of `_parse_07`: decode one value via the
BinaryType dispatch and feed it to `cellStep` until `i < Total` fails. -/
def readCells (elemP : DNB → Bytes → Except DErr (Value × DNB × Bytes))
    (total : Int) :
    Nat → Int → List Value → DNB → Bytes →
    Except DErr (List Value × DNB × Bytes)
  | 0, _, _, _, _ => .error .outOfFuel
  | fuel + 1, i, acc, dnb, s =>
    if i < total then do
      let (v, dnb1, s1) ← elemP dnb s
      cellStep total (readCells elemP total fuel) i acc v dnb1 s1
    else .ok (acc, dnb, s)

/-- `_parse_07` BinaryArray: header fields, rejection of every array shape
other than `Single`, `Total` as the product of the Lengths entries, then
the cell loop; registration happens before `Values` is attached. -/
def parse07 (rec : RecParser) (fuel : Nat) (dnb : DNB) (s : Bytes) :
    Except DErr (Dict × DNB × Bytes) := do
  let (oid, s1) ← Stream.int32 s
  let (bb, s2) ← Stream.byte s1
  let bat ← BinaryArrayTypeEnum.fromByte bb
  let (rank, s3) ← Stream.int32 s2
  let (lengths, s4) ← readInt32s rank.toNat s3
  let (bounds, s5) ←
    if bat.hasBounds then readInt32s rank.toNat s4 else pure ([], s4)
  let (btb, s6) ← Stream.byte s5
  let bt ← BinaryTypeEnum.fromByte btb
  let (atypeinfo, s7) ← bt.parseInfo s6
  let record : Dict :=
    [("ObjectId", .vint oid), ("BinaryArrayTypeEnum", .vstr bat.name),
     ("rank", .vint rank), ("Lengths", .vlist (lengths.map Value.vint)),
     ("LowerBounds", .vlist (bounds.map Value.vint)),
     ("TypeEnum", .vstr bt.name), ("AdditionalTypeInfo", atypeinfo)]
  if bat.name = "Single" then do
    let total := lengths.foldl (fun a b => a * b) (1 : Int)
    let (vals, dnb1, s8) ← readCells (btParse rec bt atypeinfo) total fuel 0 [] dnb s7
    let dnb2 := registerObject dnb1 oid record (.vlist vals)
    pure (dictSet record "Values" (.vlist vals), dnb2, s8)
  else .error .unsupportedArray

/-- `_parse_09` MemberReference: the handler's own dict — not the tagged
copy later returned by `Stream.record` — is appended to ReferenceList. -/
def parse09 (dnb : DNB) (s : Bytes) : Except DErr (Dict × DNB × Bytes) := do
  let (idRef, s1) ← Stream.int32 s
  let record : Dict := [("IdRef", .vint idRef)]
  pure (record, registerReference dnb idRef record, s1)

/-- `_parse_12` BinaryLibrary: after `LibraryId` the handler calls
`f.String()` — `Stream` defines no such method, so an `AttributeError` is
raised before any LibraryName octet is read. -/
def parse12 (dnb : DNB) (s : Bytes) : Except DErr (Dict × DNB × Bytes) := do
  let (_libId, _s1) ← Stream.int32 s
  let _ := dnb
  .error .attributeError

/-- `_parse_13` ObjectNullMultiple256: `NullCount` as one unsigned octet. -/
def parse13 (dnb : DNB) (s : Bytes) : Except DErr (Dict × DNB × Bytes) := do
  let (b, s1) ← Stream.byte s
  pure ([("NullCount", .vint b)], dnb, s1)

/-- `_parse_14` ObjectNullMultiple: `NullCount` as i32. -/
def parse14 (dnb : DNB) (s : Bytes) : Except DErr (Dict × DNB × Bytes) := do
  let (n, s1) ← Stream.int32 s
  pure ([("NullCount", .vint n)], dnb, s1)

/-- `RecordTypeEnum.parse` dispatch: the codes with a registered handler
as above; `MemberPrimitiveTyped`, the array-of-X records, `MethodCall` and
`MethodReturn` hit the unregistered-handler default. -/
def parseDispatch (rec : RecParser) (fuel : Nat) (rt : RecordTypeEnum)
    (dnb : DNB) (s : Bytes) : Except DErr (Dict × DNB × Bytes) :=
  match rt with
  | .SerializedStreamHeader => parse00 dnb s
  | .ClassWithId => parse01 rec dnb s
  | .SystemClassWithMembers => parse02 dnb s
  | .ClassWithMembers => parse03 dnb s
  | .SystemClassWithMembersAndTypes => matCommon rec true dnb s
  | .ClassWithMembersAndTypes => matCommon rec false dnb s
  | .BinaryObjectString => parse06 dnb s
  | .BinaryArray => parse07 rec fuel dnb s
  | .MemberReference => parse09 dnb s
  | .ObjectNull => .ok ([], dnb, s)
  | .MessageEnd => .ok ([], dnb, s)
  | .BinaryLibrary => parse12 dnb s
  | .ObjectNullMultiple256 => parse13 dnb s
  | .ObjectNullMultiple => parse14 dnb s
  | _ => .error .unimplementedRecord

/-- `Stream.record`: read the record-type octet, dispatch, and build a NEW
dict holding the variant tag followed by the handler's entries
(`obj = {'RecordTypeEnum': rtype.name}; obj.update(rtype.parse(self))`).
The handler's own dict — e.g. the one `_parse_09` handed to
`_registerReference` — is a distinct object from the dict returned here,
so later in-place mutation of the former is invisible in the latter. -/
def recordStep (rec : RecParser) (fuel : Nat) (dnb : DNB) (s : Bytes) :
    Except DErr (Dict × DNB × Bytes) := do
  let (b, s1) ← Stream.byte s
  let rt ← RecordTypeEnum.fromByte b
  let (parsed, dnb1, s2) ← parseDispatch rec fuel rt dnb s1
  pure (dictUpdate [("RecordTypeEnum", .vstr rt.name)] parsed, dnb1, s2)

/-- The tied knot: `Stream.record` with a fuel bound on nested-record
depth and loop budgets. -/
def recordP : Nat → DNB → Bytes → Except DErr (Dict × DNB × Bytes)
  | 0, _, _ => .error .outOfFuel
  | fuel + 1, dnb, s => recordStep (recordP fuel) fuel dnb s

/-- The `record['RecordTypeEnum'] == 'MessageEnd'` loop test of
`DNBinary.parse`.  `Stream.record` always sets the tag (a string) as the
first entry of every returned record, so the fall-through arm is
unreachable. -/
def recMessageEnd (r : Dict) : Bool :=
  match dictGet r "RecordTypeEnum" with
  | some (.vstr n) => n == "MessageEnd"
  | _ => false

/-- `DNBinary.parse`: read records, appending each to the record list,
until `MessageEnd`; in strict mode a record error propagates, in
best-effort mode the loop stops and the records read so far are
returned. -/
def parseLoop : Nat → DNB → Bytes → Except DErr (List Dict × DNB × Bytes)
  | 0, _, _ => .error .outOfFuel
  | fuel + 1, dnb, s =>
    match recordP (fuel + 1) dnb s with
    | .error e => if dnb.strict then .error e else .ok (dnb.records, dnb, s)
    | .ok (r, dnb1, s1) =>
      let dnb2 := { dnb1 with records := dnb1.records ++ [r] }
      if recMessageEnd r then .ok (dnb2.records, dnb2, s1)
      else parseLoop fuel dnb2 s1

/-- A full `DNBinary(f, best_effort, expand).parse()` run from a fresh
decoder. -/
def dnbParse (fuel : Nat) (strict expand : Bool) (s : Bytes) :
    Except DErr (List Dict × DNB × Bytes) :=
  parseLoop fuel (DNB.init strict expand) s

/-- `DNBinary._find_record` with an explicit running index. -/
def findRecordAux (records : List Dict) (rid : Int) (i : Nat) : Option Nat :=
  match records with
  | [] => none
  | r :: rest =>
    match recordId r with
    | some n => if n = rid then some i else findRecordAux rest rid (i + 1)
    | none => findRecordAux rest rid (i + 1)

/-- `DNBinary._find_record`: the index of the first record whose
`record_id` equals `rid`, or `None`. -/
def findRecord (records : List Dict) (rid : Int) : Option Nat :=
  findRecordAux records rid 0

/-- `DNBinary._prune`: skip already-pruned ids; delete the found record
only when the index is truthy (`if x:`) — i.e. found AND nonzero, so a
match at index 0 is never removed; the id joins the pruned set in every
branch. -/
def pruneObj (dnb : DNB) (objid : Int) : DNB :=
  if dnb.pruned.contains objid then dnb
  else
    let recs :=
      match findRecord dnb.records objid with
      | some i => if i = 0 then dnb.records else dnb.records.eraseIdx i
      | none => dnb.records
    { dnb with records := recs, pruned := objid :: dnb.pruned }

/-- The per-pair body of `DNBinary.backfill`: merge the target snapshot
into the referring handler dict, assign its `Values` from ValueTable, and
prune.  The merged dicts are handed back (mirroring in-place mutation of
the objects held by ReferenceList) — they are NOT the dicts stored in the
record list, which `Stream.record` built separately. -/
def backfillAux : List (Int × Dict) → Bool → DNB →
    Except DErr (List (Int × Dict) × DNB)
  | [], _, dnb => .ok ([], dnb)
  | (objid, refd) :: rest, prune, dnb => do
    let snap ← fetchObject dnb objid
    let refd1 := dictSet (dictUpdate refd snap) "Values" (fetchValues dnb objid)
    let dnb1 := if prune then pruneObj dnb objid else dnb
    let (rest1, dnb2) ← backfillAux rest prune dnb1
    pure ((objid, refd1) :: rest1, dnb2)

/-- `DNBinary.backfill(prune=True)`: process ReferenceList in insertion
order and return the (possibly pruned) top-level record list. -/
def backfill (prune : Bool) (dnb : DNB) : Except DErr (List Dict × DNB) := do
  let (refs1, dnb1) ← backfillAux dnb.objrefs prune dnb
  pure (dnb1.records, { dnb1 with objrefs := refs1 })

/-!
`DNBinary._crunch`, fuel-indexed (the Python recursion is unbounded).
Dispatch order exactly as in the source: class record (`ClassInfo` or
`MetadataId` present), verbose null (`RecordTypeEnum == 'ObjectNull'` —
when the tag is present but different, fall through), `Values`, `Value`,
the catch-all mapping recursion dropping `None` results, sequences
(keeping `None` results), and finally any scalar unchanged. -/
mutual

/-- The main dispatch of `DNBinary._crunch` (see the comment above). -/
def crunchV : Nat → DNB → Value → Except DErr Value
  | 0, _, _ => .error .outOfFuel
  | fuel + 1, dnb, v =>
    match v with
    | .vmap d =>
      if dictContains d "ClassInfo" || dictContains d "MetadataId" then
        crunchClass fuel dnb d
      else
        let isNullRec : Bool :=
          match dictGet d "RecordTypeEnum" with
          | some (.vstr n) => n == "ObjectNull"
          | _ => false
        if isNullRec then .ok .vnull
        else
          match dictGet d "Values" with
          | some vv => crunchV fuel dnb vv
          | none =>
            match dictGet d "Value" with
            | some vv => crunchV fuel dnb vv
            | none => do
              let d1 ← crunchEntries fuel dnb d
              pure (.vmap d1)
    | .vlist xs => do
      let xs1 ← crunchList fuel dnb xs
      pure (.vlist xs1)
    | other => .ok other

/-- The catch-all branch of `_crunch`: crunch each entry, dropping those
whose result is `None`. -/
def crunchEntries : Nat → DNB → Dict → Except DErr Dict
  | 0, _, _ => .error .outOfFuel
  | _ + 1, _, [] => .ok []
  | fuel + 1, dnb, (k, v) :: rest => do
    let v1 ← crunchV fuel dnb v
    let rest1 ← crunchEntries fuel dnb rest
    match v1 with
    | .vnull => pure rest1
    | w => pure ((k, w) :: rest1)

/-- The sequence branch of `_crunch`: crunch elementwise, keeping `None`
results. -/
def crunchList : Nat → DNB → List Value → Except DErr (List Value)
  | 0, _, _ => .error .outOfFuel
  | _ + 1, _, [] => .ok []
  | fuel + 1, dnb, v :: rest => do
    let v1 ← crunchV fuel dnb v
    let rest1 ← crunchList fuel dnb rest
    pure (v1 :: rest1)

/-- The member loop of `DNBinary._crunchClass`: `MemberNames[i]` against
`crunch(Values[i])`, skipping members whose crunched value is `None`
(member names are unique in any record this decoder produces, so plain
insertion order is faithful). -/
def crunchMembers : Nat → DNB → Dict → Dict → Nat → Nat → Except DErr Dict
  | 0, _, _, _, _, _ => .error .outOfFuel
  | _ + 1, _, _, _, 0, _ => .ok []
  | fuel + 1, dnb, ci, d, m + 1, i => do
    let names ← (match dictGet ci "MemberNames" with
                 | some (.vlist xs) => Except.ok xs
                 | some _ => Except.error .typeError
                 | none => Except.error .keyError)
    let nameV ← pyIndex names i
    let nm ← (match nameV with
              | .vstr t => Except.ok t
              | _ => Except.error .typeError)
    let vals ← (match dictGet d "Values" with
                | some (.vlist xs) => Except.ok xs
                | some _ => Except.error .typeError
                | none => Except.error .keyError)
    let mv ← pyIndex vals i
    let v ← crunchV fuel dnb mv
    let rest ← crunchMembers fuel dnb ci d m (i + 1)
    match v with
    | .vnull => pure rest
    | w => pure ((nm, w) :: rest)

/-- `DNBinary._crunchClass`: schema from the node's own `ClassInfo` or —
when only `MetadataId` is present — via `ObjectTable[MetadataId]`, then
the member loop.  Ids stored by this decoder are integers, hence the
integer extraction of `MetadataId` used as the table key. -/
def crunchClass : Nat → DNB → Dict → Except DErr Value
  | 0, _, _ => .error .outOfFuel
  | fuel + 1, dnb, d => do
    let ci ← (if dictContains d "ClassInfo" then
                match dictGet d "ClassInfo" with
                | some (.vmap ci) => Except.ok ci
                | some _ => Except.error .typeError
                | none => Except.error .keyError
              else do
                let mid ← (match dictGet d "MetadataId" with
                           | some (.vint n) => Except.ok n
                           | some _ => Except.error .typeError
                           | none => Except.error .keyError)
                let fetch ← fetchObject dnb mid
                match dictGet fetch "ClassInfo" with
                | some (.vmap ci) => Except.ok ci
                | some _ => Except.error .typeError
                | none => Except.error .keyError)
    let count ← (match dictGet ci "MemberCount" with
                 | some (.vint n) => Except.ok n
                 | some _ => Except.error .typeError
                 | none => Except.error .keyError)
    let kv ← crunchMembers fuel dnb ci d count.toNat 0
    pure (.vmap kv)

end

/-- `DNBinary.crunch`: `rootID = self._records[0]['RootId']`, then
`x = self._find_record(rootID)` and `self._crunch(self._records[x])`.
When no record's identity equals the root id, `x` is `None` and the
subscript `self._records[None]` raises `TypeError`.  (A non-integer root
value never equals any decoder-produced record id, so it also leads to
`x = None`.) -/
def crunch (fuel : Nat) (dnb : DNB) : Except DErr Value := do
  let first ← (match dnb.records.head? with
               | some r => Except.ok r
               | none => Except.error .indexError)
  let rootV ← (match dictGet first "RootId" with
               | some v => Except.ok v
               | none => Except.error .keyError)
  let x := match rootV with
           | .vint rid => findRecord dnb.records rid
           | _ => none
  match x with
  | none => .error .typeError
  | some i => do
    let r ← pyIndex dnb.records i
    crunchV fuel dnb (.vmap r)

/-- `parse()` followed by `backfill(prune)`, returning the record list
that `backfill` returns. -/
def parseThenBackfill (fuel : Nat) (strict expand prune : Bool) (s : Bytes) :
    Except DErr (List Dict) := do
  let (_, dnb, _) ← dnbParse fuel strict expand s
  let (recs, _) ← backfill prune dnb
  pure recs

/-- `parse()` followed by `crunch()` (no backfill), as the CLI driver runs
with `-c` alone. -/
def parseThenCrunch (fuel : Nat) (strict expand : Bool) (s : Bytes) :
    Except DErr Value := do
  let (_, dnb, _) ← dnbParse fuel strict expand s
  crunch fuel dnb

/-- Python `isinstance(r, dict)` on an embedded value. -/
def isMapV : Value → Bool
  | .vmap _ => true
  | _ => false

/-- The number of array cells one stored value accounts for: `NullCount`
for a run-length null record, 1 for any other mapping, 0 for a non-mapping
(which the cell loop never stores). -/
def cellWeight : Value → Int
  | .vmap d =>
    (match dictGet d "NullCount" with
     | some (.vint n) => n
     | some _ => 0
     | none => 1)
  | _ => 0

/-- Total cells accounted for by a stored value list. -/
def cellSum (vs : List Value) : Int :=
  (vs.map cellWeight).sum

/-- The ObjectTable snapshot invariant of claim C10: no stored snapshot
carries the `RecordTypeEnum` key. -/
def cleanTable (t : List (Int × Dict)) : Prop :=
  ∀ p ∈ t, dictContains p.2 "RecordTypeEnum" = false

/-- A preservation predicate for the state-threading decoder functions:
whenever the function succeeds, a clean ObjectTable stays clean. -/
def PreservesClean {α : Type} (f : DNB → Bytes → Except DErr (α × DNB × Bytes)) : Prop :=
  ∀ dnb s a dnb1 s1, f dnb s = .ok (a, dnb1, s1) →
    cleanTable dnb.objects → cleanTable dnb1.objects

/-- Spec scenario 1, "minimal valid stream": header with RootId=1,
HeaderId=−1, Major=1, Minor=0, then MessageEnd. -/
def minBytes : Bytes :=
  [0x00, 1, 0, 0, 0, 0xFF, 0xFF, 0xFF, 0xFF, 1, 0, 0, 0, 0, 0, 0, 0, 0x0B]

/-- The decoded header record of `minBytes`. -/
def hdrD : Dict :=
  [("RecordTypeEnum", .vstr "SerializedStreamHeader"), ("RootId", .vint 1),
   ("HeaderId", .vint (-1)), ("MajorVersion", .vint 1), ("MinorVersion", .vint 0)]

/-- A decoded MessageEnd record. -/
def endD : Dict := [("RecordTypeEnum", .vstr "MessageEnd")]

/-- Header, then BinaryObjectString ObjectId=4 Value="x", then
MemberReference IdRef=4, then MessageEnd. -/
def c1Bytes : Bytes :=
  [0x00, 1, 0, 0, 0, 0xFF, 0xFF, 0xFF, 0xFF, 1, 0, 0, 0, 0, 0, 0, 0,
   0x06, 4, 0, 0, 0, 1, 0x78,
   0x09, 4, 0, 0, 0,
   0x0B]

/-- The decoded MemberReference record of `c1Bytes`/`c2Bytes`. -/
def refD : Dict := [("RecordTypeEnum", .vstr "MemberReference"), ("IdRef", .vint 4)]

/-- The decoded BinaryObjectString record of `c1Bytes`/`c2Bytes`. -/
def bosD : Dict :=
  [("RecordTypeEnum", .vstr "BinaryObjectString"), ("ObjectId", .vint 4),
   ("Value", .vstr "x")]

/-- The same store/reference pair as `c1Bytes` but with no header, so the
referenced BinaryObjectString sits at top-level index 0. -/
def c2Bytes : Bytes :=
  [0x06, 4, 0, 0, 0, 1, 0x78, 0x09, 4, 0, 0, 0, 0x0B]

/-- Two BinaryObjectString records that both claim ObjectId=2 (values "a"
and "b"), then MessageEnd. -/
def c4Bytes : Bytes :=
  [0x06, 2, 0, 0, 0, 1, 0x61, 0x06, 2, 0, 0, 0, 1, 0x62, 0x0B]

/-- The first decoded duplicate-id record of `c4Bytes`. -/
def bosA : Dict :=
  [("RecordTypeEnum", .vstr "BinaryObjectString"), ("ObjectId", .vint 2),
   ("Value", .vstr "a")]

/-- The second decoded duplicate-id record of `c4Bytes`. -/
def bosB : Dict :=
  [("RecordTypeEnum", .vstr "BinaryObjectString"), ("ObjectId", .vint 2),
   ("Value", .vstr "b")]

/-- A BinaryArray record: ObjectId=5, Single shape, Rank=1, Lengths=[1],
element type Primitive/Byte, followed by exactly the one byte `0x2A` that
the claimed cell accounting says fills the single cell, and then a
MessageEnd record.  Under the claim's accounting the parse succeeds (the
byte fills the array, `0x0B` terminates the stream); the code instead
consumes `0x2A` and `0x0B` as uncounted cell values and hits end of
stream. -/
def c5EndBytes : Bytes :=
  [0x07, 5, 0, 0, 0, 0x00, 1, 0, 0, 0, 1, 0, 0, 0, 0x00, 0x02, 0x2A, 0x0B]

/-- A BinaryArray record: ObjectId=5, Single shape, Rank=1, Lengths=[2],
element type String, content a single ObjectNullMultiple256 with
NullCount=2, then MessageEnd — an array whose cells are all accounted for
by one run-length null mapping. -/
def c5okBytes : Bytes :=
  [0x07, 5, 0, 0, 0, 0x00, 1, 0, 0, 0, 2, 0, 0, 0, 0x01, 0x0D, 0x02, 0x0B]

/-- The suffix of `c5okBytes` after the BinaryArray type octet: the input
`_parse_07` itself receives. -/
def c5ArrTail : Bytes :=
  [5, 0, 0, 0, 0x00, 1, 0, 0, 0, 2, 0, 0, 0, 0x01, 0x0D, 0x02, 0x0B]

/-- The decoded ObjectNullMultiple256 cell value of `c5okBytes`. -/
def nullRunD : Dict :=
  [("RecordTypeEnum", .vstr "ObjectNullMultiple256"), ("NullCount", .vint 2)]

/-- The dict `_parse_07` returns for `c5ArrTail` (before `Stream.record`
prepends the variant tag). -/
def arrD07 : Dict :=
  [("ObjectId", .vint 5), ("BinaryArrayTypeEnum", .vstr "Single"),
   ("rank", .vint 1), ("Lengths", .vlist [.vint 2]), ("LowerBounds", .vlist []),
   ("TypeEnum", .vstr "String"), ("AdditionalTypeInfo", .vnull),
   ("Values", .vlist [.vmap nullRunD])]

/-- The decoder state right after `_parse_07` on `c5ArrTail`: the array
registered in ObjectTable (snapshot without `Values`) and ValueTable. -/
def dnbAfterArr : DNB :=
  DNB.mk [(5, [("ObjectId", .vint 5), ("BinaryArrayTypeEnum", .vstr "Single"),
               ("rank", .vint 1), ("Lengths", .vlist [.vint 2]),
               ("LowerBounds", .vlist []), ("TypeEnum", .vstr "String"),
               ("AdditionalTypeInfo", .vnull)])]
    [(5, .vlist [.vmap nullRunD])]
    [] [] [] true false

/-- The full decoded BinaryArray record of `c5okBytes` as it appears in
the record list. -/
def arrD : Dict := ("RecordTypeEnum", Value.vstr "BinaryArray") :: arrD07

/-- Modelled from the claim's words (C5), for contrast with the code's
`readCells` only: the cell-reading loop as the claim describes it — "an
ObjectNullMultiple or ObjectNullMultiple256 value consumes NullCount cells
and any other value consumes one cell; if a run-length null would push the
accounted cell count past Total, decoding fails with ArrayOverrun". -/
def claimReadCells (elemP : DNB → Bytes → Except DErr (Value × DNB × Bytes))
    (total : Int) :
    Nat → Int → List Value → DNB → Bytes →
    Except DErr (List Value × DNB × Bytes)
  | 0, _, _, _, _ => .error .outOfFuel
  | fuel + 1, i, acc, dnb, s =>
    if i < total then do
      let (v, dnb1, s1) ← elemP dnb s
      let n : Int :=
        match v with
        | .vmap d =>
          (match dictGet d "NullCount" with
           | some (.vint k) => k
           | _ => 1)
        | _ => 1
      if i + n > total then .error .arrayOverrun
      else claimReadCells elemP total fuel (i + n) (acc ++ [v]) dnb1 s1
    else .ok (acc, dnb, s)

/-- A BinaryArray record of Single shape with `Lengths=[1]` and element
type String whose first cell is an ObjectNullMultiple256 with
`NullCount=2`: the run-length null pushes the accounted count past
`Total`, so the parse fails with the ArrayOverrun error. -/
def c5ovBytes : Bytes :=
  [0x07, 5, 0, 0, 0, 0x00, 1, 0, 0, 0, 1, 0, 0, 0, 0x01, 0x0D, 0x02]

/-- The element decoder of a `Primitive`/`Byte` BinaryArray as built by
`_parse_07`: it always yields an integer, never a mapping. -/
def pByteElem : DNB → Bytes → Except DErr (Value × DNB × Bytes) :=
  btParse (recordP 1) .Primitive (.vstr "Byte")

/-- The complete decoder state after `parse()` on `c2Bytes`: one
ObjectTable snapshot (without any `RecordTypeEnum` key), one ValueTable
entry, one reference pair, three records. -/
def dnbC2Final : DNB :=
  DNB.mk [(4, [("ObjectId", .vint 4), ("Value", .vstr "x")])]
    [(4, .vstr "x")]
    [(4, [("IdRef", .vint 4)])]
    [bosD, refD, endD]
    [] true false

/-! Basic lemmas about the table and dictionary operations. -/

theorem intGet_intSet_self {α : Type} (t : List (Int × α)) (k : Int) (v : α) :
    intGet (intSet t k v) k = some v := by
  induction t with
  | nil => simp [intSet, intGet]
  | cons p rest ih =>
    obtain ⟨k', v'⟩ := p
    by_cases h : k' = k
    · simp [intSet, intGet, h]
    · simp [intSet, intGet, h, ih]

theorem mem_intSet {α : Type} {t : List (Int × α)} {k : Int} {v : α} {p : Int × α}
    (h : p ∈ intSet t k v) : p = (k, v) ∨ p ∈ t := by
  induction t with
  | nil => simpa [intSet] using h
  | cons q rest ih =>
    obtain ⟨k', v'⟩ := q
    by_cases hk : k' = k
    · simp [intSet, hk] at h
      rcases h with h | h
      · exact Or.inl (by simp [h])
      · exact Or.inr (by simp [h])
    · simp [intSet, hk] at h
      rcases h with h | h
      · exact Or.inr (by simp [h])
      · rcases ih h with h1 | h1
        · exact Or.inl h1
        · exact Or.inr (by simp [h1])

theorem dictGet_dictSet_ne (d : Dict) (k1 k : String) (v : Value) (h : k1 ≠ k) :
    dictGet (dictSet d k1 v) k = dictGet d k := by
  induction d with
  | nil => simp [dictSet, dictGet, h]
  | cons p rest ih =>
    obtain ⟨k', v'⟩ := p
    by_cases hk : k' = k1
    · simp [dictSet, dictGet, hk, h]
    · by_cases hk2 : k' = k
      · simp [dictSet, dictGet, hk, hk2, Ne.symm h]
      · simp [dictSet, dictGet, hk, hk2, ih]

theorem dictGet_dictSet_self (d : Dict) (k : String) (v : Value) :
    dictGet (dictSet d k v) k = some v := by
  induction d with
  | nil => simp [dictSet, dictGet]
  | cons p rest ih =>
    obtain ⟨k', v'⟩ := p
    by_cases hk : k' = k
    · simp [dictSet, dictGet, hk]
    · simp [dictSet, dictGet, hk, ih]

theorem dictGet_dictUpdate_of_not_contains (a b : Dict) (k : String)
    (hb : dictContains b k = false) :
    dictGet (dictUpdate a b) k = dictGet a k := by
  induction b generalizing a with
  | nil => simp [dictUpdate]
  | cons p rest ih =>
    obtain ⟨k1, v1⟩ := p
    have hstep : dictUpdate a ((k1, v1) :: rest) = dictUpdate (dictSet a k1 v1) rest := rfl
    by_cases hk : k1 = k
    · simp [dictContains, dictGet, hk] at hb
    · simp [dictContains, dictGet, hk] at hb
      rw [hstep, ih _ (by simpa [dictContains] using hb),
        dictGet_dictSet_ne _ _ _ _ hk]

theorem dictContains_dictUpdate_false (a b : Dict) (k : String)
    (ha : dictContains a k = false) (hb : dictContains b k = false) :
    dictContains (dictUpdate a b) k = false := by
  simp only [dictContains] at *
  rw [dictGet_dictUpdate_of_not_contains a b k (by simpa [dictContains] using hb)]
  exact ha

theorem dictContains_append (a b : Dict) (k : String) :
    dictContains (a ++ b) k = (dictContains a k || dictContains b k) := by
  induction a with
  | nil => simp [dictContains, dictGet]
  | cons p rest ih =>
    obtain ⟨k', v'⟩ := p
    by_cases hk : k' = k
    · simp [dictContains, dictGet, hk]
    · simpa [dictContains, dictGet, hk] using ih

/-- C1: after `parse()` then `backfill(prune=True)` on a stream containing
`BinaryObjectString ObjectId=4 Value="x"` followed by `MemberReference
IdRef=4`, the member-reference record in the returned top-level list still
consists of nothing but its variant tag and `IdRef`: neither the target's
`Value` field nor a `Values` key was filled in, because `backfill` mutates
the detached handler dict, not the dict `Stream.record` placed in the
record list.  (The target record itself was pruned, showing backfill did
run over this pair.) -/
theorem c1_backfill_reference_unchanged :
    parseThenBackfill 32 true false true c1Bytes = .ok [hdrD, refD, endD] ∧
    dictContains refD "Value" = false ∧ dictContains refD "Values" = false :=
  ⟨by rfl, by rfl, by rfl⟩

/-- C2: with the referenced record at top-level index 0 (no header first),
`backfill(prune=True)` does NOT remove it: `_find_record` returns `0`,
which `if x:` treats as falsy.  The record with identity 4 is still the
first element of the returned list. -/
theorem c2_prune_misses_first_record :
    parseThenBackfill 32 true false true c2Bytes = .ok [bosD, refD, endD] ∧
    recordId bosD = some 4 :=
  ⟨by rfl, by rfl⟩

/-- C4 counterexample: a strict-mode parse of two records that both
register ObjectId=2 succeeds (three records come back, two of them with
the same id) — there is no `DuplicateObjectId` failure. -/
theorem c4_counterexample :
    (dnbParse 32 true false c4Bytes).map (fun t => t.1) = .ok [bosA, bosB, endD] ∧
    recordId bosA = recordId bosB :=
  ⟨by rfl, by rfl⟩

/-- C4 (amended): `_registerObject` under an already-present ObjectId
silently overwrites both the ObjectTable snapshot and the ValueTable
entry. -/
theorem c4_duplicate_overwrites (dnb : DNB) (ref : Int) (o1 o2 : Dict) (v1 v2 : Value) :
    intGet ((registerObject (registerObject dnb ref o1 v1) ref o2 v2).objects) ref
      = some o2 ∧
    intGet ((registerObject (registerObject dnb ref o1 v1) ref o2 v2).values) ref
      = some v2 := by
  constructor
  · simp [registerObject, intGet_intSet_self]
  · simp [registerObject, intGet_intSet_self]

/-- C5 counterexample: a Single-shape BinaryArray with `Lengths=[1]` and
element type Primitive/Byte, one value octet, then MessageEnd.  Second
conjunct: under the claim's accounting (modelled verbatim as
`claimReadCells`) the cell loop completes on the value bytes — the octet
`0x2A` fills the single cell and `0x0B` is left for MessageEnd — so the
claimed semantics parses this stream.  First conjunct: the code instead
never counts the integer cells, swallows both octets as uncounted values,
and the strict parse fails with `EOFError`. -/
theorem c5_counterexample :
    dnbParse 32 true false c5EndBytes = .error .eof ∧
    claimReadCells (btParse (recordP 30) .Primitive (.vstr "Byte")) 1 30 0 []
      (DNB.init true false) [0x2A, 0x0B]
      = .ok ([.vint 0x2A], DNB.init true false, [0x0B]) :=
  ⟨by rfl, by rfl⟩

/-- C6 counterexample: on the minimal valid stream `crunch()` does not
return the header mapping — `_find_record(1)` is `None` and
`self._records[None]` raises `TypeError`. -/
theorem c6_counterexample :
    parseThenCrunch 32 true false minBytes = .error .typeError :=
  by rfl

/-- C6 (amended): `parse()` on the minimal valid stream returns exactly
the two records, and `crunch()` raises `TypeError` because RootId=1
matches no decoded object. -/
theorem c6_minimal_stream :
    (dnbParse 32 true false minBytes).map (fun t => t.1) = .ok [hdrD, endD] ∧
    parseThenCrunch 32 true false minBytes = .error .typeError :=
  ⟨by rfl, by rfl⟩

/-- C8 counterexample: the decoder accepts the three-octet text `"12\n"`
(returning `Decimal("12")`), although that text does not match the spec's
regex `^-?\d+(\.\d+)?$` under full anchoring — Python's `$` also matches
just before a final newline. -/
theorem c8_counterexample :
    Stream.decimal [3, 0x31, 0x32, 0x0A] = .ok (.vdec "12", []) ∧
    specDecimalRegexMatch "12\n" = false :=
  ⟨by rfl, by rfl⟩

theorem stringLengthAux_replicate (k : Nat) :
    ∀ shift, Stream.stringLengthAux shift 0 (List.replicate k 128 ++ [0]) = .ok (0, []) := by
  induction k with
  | zero => intro shift; simp [Stream.stringLengthAux]
  | succ n ih =>
    intro shift
    simp only [List.replicate, List.cons_append, Stream.stringLengthAux]
    norm_num
    exact ih (shift + 7)

/-- C3: `Stream.string` enforces no bound at all on the number of
continuation bytes of the length prefix: for EVERY `k`, a prefix of `k`
continuation octets `0x80` followed by the terminating octet `0x00` is
accepted (here encoding length 0, so the empty string is returned with
the whole input consumed).  In particular seven continuation bytes — more
than the five the claim says are rejected — decode without any
`StringLengthOverflow` (no such error exists anywhere in the code). -/
theorem c3_length_prefix_unbounded :
    ∀ k, Stream.string (List.replicate k 128 ++ [0]) = .ok ("", []) := by
  intro k
  simp only [Stream.string, stringLengthAux_replicate k 0]
  rfl

theorem read_cons4 (b0 b1 b2 b3 : Nat) (rest : Bytes) :
    Stream.read 4 (b0 :: b1 :: b2 :: b3 :: rest) = .ok ([b0, b1, b2, b3], rest) := by
  have h4 : 4 ≤ (b0 :: b1 :: b2 :: b3 :: rest).length := by
    simp [List.length_cons]
  simp [Stream.read, h4, List.take, List.drop]

/-- C7: decoding a BinaryLibrary record (wire code 12) never returns a
record at all.  After reading the four `LibraryId` octets, `_parse_12`
calls `f.String()` — a method `Stream` does not define — so every such
record fails with `AttributeError` instead of yielding
`{LibraryId, LibraryName}` (first conjunct: the handler on any stream
holding at least the four id octets; second conjunct: a concrete whole
record through `Stream.record` dispatch). -/
theorem c7_binarylibrary_attribute_error :
    (∀ (b0 b1 b2 b3 : Nat) (rest : Bytes) (dnb : DNB),
      parse12 dnb (b0 :: b1 :: b2 :: b3 :: rest) = .error .attributeError) ∧
    recordP 2 (DNB.init true false) [0x0C, 1, 0, 0, 0, 0x03, 0x61, 0x62, 0x63]
      = .error .attributeError := by
  constructor
  · intro b0 b1 b2 b3 rest dnb
    simp [parse12, Stream.int32, read_cons4]
    rfl
  · rfl

theorem exceptBind_ok {α β : Type} {x : Except DErr α} {f : α → Except DErr β} {b : β} :
    (x >>= f) = .ok b ↔ ∃ a, x = .ok a ∧ f a = .ok b := by
  cases x <;> simp [Bind.bind, Except.bind]

theorem cellSum_append_single (vs : List Value) (v : Value) :
    cellSum (vs ++ [v]) = cellSum vs + cellWeight v := by
  simp [cellSum]

theorem readCells_nonmap_step
    (elemP : DNB → Bytes → Except DErr (Value × DNB × Bytes))
    (total : Int) (fuel : Nat) (i : Int) (acc : List Value) (dnb : DNB) (s : Bytes)
    (v : Value) (dnb1 : DNB) (s1 : Bytes)
    (hE : elemP dnb s = .ok (v, dnb1, s1)) (hM : isMapV v = false) (hi : i < total) :
    readCells elemP total (fuel + 1) i acc dnb s
      = readCells elemP total fuel i acc dnb1 s1 := by
  cases v with
  | vmap d => simp [isMapV] at hM
  | vnull => simp [readCells, hi, hE, Bind.bind, Except.bind, cellStep]
  | vbool b => simp [readCells, hi, hE, Bind.bind, Except.bind, cellStep]
  | vint n => simp [readCells, hi, hE, Bind.bind, Except.bind, cellStep]
  | vfloat b => simp [readCells, hi, hE, Bind.bind, Except.bind, cellStep]
  | vdec t => simp [readCells, hi, hE, Bind.bind, Except.bind, cellStep]
  | vstr t => simp [readCells, hi, hE, Bind.bind, Except.bind, cellStep]
  | vlist xs => simp [readCells, hi, hE, Bind.bind, Except.bind, cellStep]

theorem readCells_nonmap_never
    (elemP : DNB → Bytes → Except DErr (Value × DNB × Bytes))
    (hNM : ∀ dnb s v dnb1 s1, elemP dnb s = .ok (v, dnb1, s1) → isMapV v = false)
    (total : Int) :
    ∀ (fuel : Nat) (i : Int) (acc : List Value) (dnb : DNB) (s : Bytes),
      i < total → (readCells elemP total fuel i acc dnb s).isOk = false := by
  intro fuel
  induction fuel with
  | zero => intro i acc dnb s _; simp [readCells, Except.isOk, Except.toBool]
  | succ n ih =>
    intro i acc dnb s hi
    cases hE : elemP dnb s with
    | error e => simp [readCells, hi, hE, Bind.bind, Except.bind, Except.isOk, Except.toBool]
    | ok t =>
      obtain ⟨v, dnb1, s1⟩ := t
      rw [readCells_nonmap_step elemP total n i acc dnb s v dnb1 s1 hE
        (hNM dnb s v dnb1 s1 hE) hi]
      exact ih i acc dnb1 s1 hi

theorem pByteElem_nonmap :
    ∀ dnb s v dnb1 s1, pByteElem dnb s = .ok (v, dnb1, s1) → isMapV v = false := by
  intro dnb s v dnb1 s1 h
  cases s with
  | nil =>
    simp [pByteElem, btParse, PrimitiveTypeEnum.fromName, PrimitiveTypeEnum.parse,
      Stream.byte, Bind.bind, Except.bind, Functor.map, Except.map] at h
  | cons b r =>
    simp [pByteElem, btParse, PrimitiveTypeEnum.fromName, PrimitiveTypeEnum.parse,
      Stream.byte, Bind.bind, Except.bind, Functor.map, Except.map, pure, Except.pure] at h
    rcases h with ⟨hv, hrest⟩
    simp [← hv, isMapV]

/-- C9: in the cell loop of `_parse_07`, a value that decodes to a
non-mapping is neither counted nor stored — the loop continues with the
same counter and the same value list (first conjunct) — and consequently,
whenever the element decoder can only produce non-mappings (as the
Primitive dispatch does) and at least one cell remains, the loop can never
return successfully: on every byte stream it keeps consuming values until
an error (EOFError on a finite stream; fuel exhaustion stands in for the
unbounded continuation). -/
theorem c9_nonmapping_cells_never_complete :
    (∀ (elemP : DNB → Bytes → Except DErr (Value × DNB × Bytes))
       (total : Int) (fuel : Nat) (i : Int) (acc : List Value) (dnb : DNB)
       (s : Bytes) (v : Value) (dnb1 : DNB) (s1 : Bytes),
       elemP dnb s = .ok (v, dnb1, s1) → isMapV v = false → i < total →
       readCells elemP total (fuel + 1) i acc dnb s
         = readCells elemP total fuel i acc dnb1 s1) ∧
    (∀ (elemP : DNB → Bytes → Except DErr (Value × DNB × Bytes)),
       (∀ dnb s v dnb1 s1, elemP dnb s = .ok (v, dnb1, s1) → isMapV v = false) →
       ∀ (total : Int) (fuel : Nat) (i : Int) (acc : List Value) (dnb : DNB) (s : Bytes),
         i < total → (readCells elemP total fuel i acc dnb s).isOk = false) :=
  ⟨readCells_nonmap_step,
   fun elemP hNM total fuel i acc dnb s hi =>
     readCells_nonmap_never elemP hNM total fuel i acc dnb s hi⟩

theorem c9_nonmapping_cells_never_complete_witness :
    ((0 : Int) < 1) ∧
    (readCells pByteElem 1 3 0 [] (DNB.init true false) [42, 42, 42]).isOk = false :=
  ⟨by decide,
   c9_nonmapping_cells_never_complete.2 pByteElem pByteElem_nonmap 1 3 0 []
     (DNB.init true false) [42, 42, 42] (by decide)⟩

theorem readCells_sum_inv
    (elemP : DNB → Bytes → Except DErr (Value × DNB × Bytes)) (total : Int) :
    ∀ (fuel : Nat) (i : Int) (acc : List Value) (dnb : DNB) (s : Bytes)
      (vs : List Value) (dnb1 : DNB) (s1 : Bytes),
      readCells elemP total fuel i acc dnb s = .ok (vs, dnb1, s1) → i ≤ total →
      ((∀ v ∈ acc, isMapV v = true) → ∀ v ∈ vs, isMapV v = true) ∧
      cellSum vs = cellSum acc + (total - i) := by
  intro fuel
  induction fuel with
  | zero => intro i acc dnb s vs dnb1 s1 h _; simp [readCells] at h
  | succ nf ih =>
    intro i acc dnb s vs dnb1 s1 h hle
    by_cases hi : i < total
    · simp only [readCells, if_pos hi] at h
      cases hE : elemP dnb s with
      | error e => rw [hE] at h; simp [Bind.bind, Except.bind] at h
      | ok t =>
        obtain ⟨v, dnbA, sA⟩ := t
        rw [hE] at h
        simp only [Bind.bind, Except.bind] at h
        cases v with
        | vmap d =>
          simp only [cellStep] at h
          cases hNC : dictGet d "NullCount" with
          | none =>
            rw [hNC] at h
            simp only [nullCountStep] at h
            by_cases hov : i + 1 > total
            · rw [if_pos hov] at h; simp at h
            · rw [if_neg hov] at h
              have hle2 : i + 1 ≤ total := by omega
              obtain ⟨hm, hs⟩ := ih (i + 1) (acc ++ [.vmap d]) dnbA sA vs dnb1 s1 h hle2
              have hw : cellWeight (.vmap d) = 1 := by simp [cellWeight, hNC]
              refine ⟨?_, ?_⟩
              · intro hacc v hv
                refine hm ?_ v hv
                intro w hw2
                rcases List.mem_append.mp hw2 with h1 | h1
                · exact hacc w h1
                · simp at h1; subst h1; rfl
              · rw [cellSum_append_single, hw] at hs
                omega
          | some nc =>
            rw [hNC] at h
            cases nc with
            | vint m =>
              simp only [nullCountStep] at h
              by_cases hov : i + m > total
              · rw [if_pos hov] at h; simp at h
              · rw [if_neg hov] at h
                have hle2 : i + m ≤ total := by omega
                obtain ⟨hm2, hs⟩ := ih (i + m) (acc ++ [.vmap d]) dnbA sA vs dnb1 s1 h hle2
                have hw : cellWeight (.vmap d) = m := by simp [cellWeight, hNC]
                refine ⟨?_, ?_⟩
                · intro hacc v hv
                  refine hm2 ?_ v hv
                  intro w hw2
                  rcases List.mem_append.mp hw2 with h1 | h1
                  · exact hacc w h1
                  · simp at h1; subst h1; rfl
                · rw [cellSum_append_single, hw] at hs
                  omega
            | vnull => simp [nullCountStep] at h
            | vbool b => simp [nullCountStep] at h
            | vfloat b => simp [nullCountStep] at h
            | vdec t => simp [nullCountStep] at h
            | vstr t => simp [nullCountStep] at h
            | vlist xs => simp [nullCountStep] at h
            | vmap d2 => simp [nullCountStep] at h
        | vnull => simp only [cellStep] at h; exact ih i acc dnbA sA vs dnb1 s1 h hle
        | vbool b => simp only [cellStep] at h; exact ih i acc dnbA sA vs dnb1 s1 h hle
        | vint m => simp only [cellStep] at h; exact ih i acc dnbA sA vs dnb1 s1 h hle
        | vfloat b => simp only [cellStep] at h; exact ih i acc dnbA sA vs dnb1 s1 h hle
        | vdec t => simp only [cellStep] at h; exact ih i acc dnbA sA vs dnb1 s1 h hle
        | vstr t => simp only [cellStep] at h; exact ih i acc dnbA sA vs dnb1 s1 h hle
        | vlist xs => simp only [cellStep] at h; exact ih i acc dnbA sA vs dnb1 s1 h hle
    · simp only [readCells, if_neg hi] at h
      have hvs : vs = acc := by
        simp only [Except.ok.injEq, Prod.mk.injEq] at h
        exact h.1.symm
      subst hvs
      have : i = total := by omega
      subst this
      exact ⟨fun hacc => hacc, by omega⟩

theorem readCells_accounting
    (elemP : DNB → Bytes → Except DErr (Value × DNB × Bytes)) (total : Int)
    (fuel : Nat) (vs : List Value) (dnb dnb1 : DNB) (s s1 : Bytes)
    (h : readCells elemP total fuel 0 [] dnb s = .ok (vs, dnb1, s1)) :
    (∀ v ∈ vs, isMapV v = true) ∧ cellSum vs = max total 0 := by
  have hnil : cellSum ([] : List Value) = 0 := by simp [cellSum]
  by_cases h0 : (0 : Int) < total
  · obtain ⟨hm, hs⟩ := readCells_sum_inv elemP total fuel 0 [] dnb s vs dnb1 s1 h
      (le_of_lt h0)
    rw [hnil] at hs
    refine ⟨hm (by simp), ?_⟩
    omega
  · cases fuel with
    | zero => simp [readCells] at h
    | succ n =>
      simp only [readCells, if_neg h0] at h
      have hvs : vs = [] := by
        simp only [Except.ok.injEq, Prod.mk.injEq] at h
        exact h.1.symm
      subst hvs
      rw [hnil]
      exact ⟨by simp, by omega⟩

theorem parse07_accounting (rec : RecParser) (fuel : Nat) (dnb : DNB) (s : Bytes)
    (d : Dict) (dnb1 : DNB) (s1 : Bytes)
    (h : parse07 rec fuel dnb s = .ok (d, dnb1, s1)) :
    ∃ (lengths : List Int) (vs : List Value),
      dictGet d "Lengths" = some (.vlist (lengths.map Value.vint)) ∧
      dictGet d "Values" = some (.vlist vs) ∧
      (∀ v ∈ vs, isMapV v = true) ∧
      cellSum vs = max (lengths.foldl (fun a b => a * b) 1) 0 := by
  simp only [parse07, exceptBind_ok] at h
  obtain ⟨⟨oid, sA⟩, hoid, h⟩ := h
  obtain ⟨⟨bb, sB⟩, hbb, h⟩ := h
  obtain ⟨bat, hbat, h⟩ := h
  obtain ⟨⟨rank, sC⟩, hrank, h⟩ := h
  obtain ⟨⟨lengths, sD⟩, hlen, h⟩ := h
  cases hbnd : bat.hasBounds with
  | true =>
    rw [if_pos hbnd] at h
    simp only [exceptBind_ok] at h
    obtain ⟨⟨bounds, sE⟩, hbounds, h⟩ := h
    obtain ⟨⟨btb, sF⟩, hbtb, h⟩ := h
    obtain ⟨bt, hbt, h⟩ := h
    obtain ⟨⟨atypeinfo, sG⟩, hinfo, h⟩ := h
    by_cases hsingle : bat.name = "Single"
    · rw [if_pos hsingle] at h
      simp only [exceptBind_ok] at h
      obtain ⟨⟨vals, dnbA, sH⟩, hcells, hpure⟩ := h
      simp only [pure, Except.pure, Except.ok.injEq, Prod.mk.injEq] at hpure
      obtain ⟨hd, -, -⟩ := hpure
      refine ⟨lengths, vals, ?_, ?_,
        readCells_accounting _ _ fuel vals dnb dnbA sG sH hcells⟩
      · rw [← hd, dictGet_dictSet_ne _ _ _ _ (by decide)]
        rfl
      · rw [← hd, dictGet_dictSet_self]
    · rw [if_neg hsingle] at h
      cases h
  | false =>
    rw [if_neg (by simp [hbnd])] at h
    simp only [exceptBind_ok] at h
    obtain ⟨⟨bounds, sE⟩, hbounds, h⟩ := h
    obtain ⟨⟨btb, sF⟩, hbtb, h⟩ := h
    obtain ⟨bt, hbt, h⟩ := h
    obtain ⟨⟨atypeinfo, sG⟩, hinfo, h⟩ := h
    by_cases hsingle : bat.name = "Single"
    · rw [if_pos hsingle] at h
      simp only [exceptBind_ok] at h
      obtain ⟨⟨vals, dnbA, sH⟩, hcells, hpure⟩ := h
      simp only [pure, Except.pure, Except.ok.injEq, Prod.mk.injEq] at hpure
      obtain ⟨hd, -, -⟩ := hpure
      refine ⟨lengths, vals, ?_, ?_,
        readCells_accounting _ _ fuel vals dnb dnbA sG sH hcells⟩
      · rw [← hd, dictGet_dictSet_ne _ _ _ _ (by decide)]
        rfl
      · rw [← hd, dictGet_dictSet_self]
    · rw [if_neg hsingle] at h
      cases h

/-- C5 (amended): the cell accounting of `_parse_07`, tied to the handler
itself.  First conjunct: every successful `_parse_07` returns a record
whose `Values` entries are all mappings and account for exactly
`max (∏ Lengths) 0` cells (`NullCount` for run-length nulls, one for every
other mapping; non-mappings are never stored and account for nothing).
Second conjunct: a run-length null whose `NullCount` would push the
accounted count past `Total` makes the cell loop fail with the
ArrayOverrun error.  Third conjunct: a concrete strict parse — a String
array of length 2 filled by one ObjectNullMultiple256 of `NullCount=2` —
succeeds end to end with exactly that accounting.  Fourth conjunct: a
concrete strict parse whose run-length null overflows `Lengths=[1]` fails
with ArrayOverrun. -/
theorem c5_cell_accounting :
    (∀ (rec : RecParser) (fuel : Nat) (dnb : DNB) (s : Bytes)
       (d : Dict) (dnb1 : DNB) (s1 : Bytes),
       parse07 rec fuel dnb s = .ok (d, dnb1, s1) →
       ∃ (lengths : List Int) (vs : List Value),
         dictGet d "Lengths" = some (.vlist (lengths.map Value.vint)) ∧
         dictGet d "Values" = some (.vlist vs) ∧
         (∀ v ∈ vs, isMapV v = true) ∧
         cellSum vs = max (lengths.foldl (fun a b => a * b) 1) 0) ∧
    (∀ (elemP : DNB → Bytes → Except DErr (Value × DNB × Bytes))
       (total : Int) (fuel : Nat) (i : Int) (acc : List Value) (dnb : DNB)
       (s : Bytes) (d : Dict) (dnb1 : DNB) (s1 : Bytes) (m : Int),
       i < total → elemP dnb s = .ok (.vmap d, dnb1, s1) →
       dictGet d "NullCount" = some (.vint m) → i + m > total →
       readCells elemP total (fuel + 1) i acc dnb s = .error .arrayOverrun) ∧
    (dnbParse 32 true false c5okBytes).map (fun t => t.1) = .ok [arrD, endD] ∧
    dnbParse 32 true false c5ovBytes = .error .arrayOverrun := by
  refine ⟨parse07_accounting, ?_, by rfl, by rfl⟩
  intro elemP total fuel i acc dnb s d dnb1 s1 m hi hE hNC hov
  simp only [readCells, if_pos hi, hE, Bind.bind, Except.bind, cellStep, hNC,
    nullCountStep]
  rw [if_pos hov]

theorem c5_cell_accounting_witness :
    (∃ (lengths : List Int) (vs : List Value),
      dictGet arrD07 "Lengths" = some (.vlist (lengths.map Value.vint)) ∧
      dictGet arrD07 "Values" = some (.vlist vs) ∧
      (∀ v ∈ vs, isMapV v = true) ∧
      cellSum vs = max (lengths.foldl (fun a b => a * b) 1) 0) ∧
    readCells (fun dnb s => .ok (.vmap [("NullCount", .vint 3)], dnb, s)) 2 1 0 []
      (DNB.init true false) [] = .error .arrayOverrun :=
  ⟨c5_cell_accounting.1 (recordP 31) 31 (DNB.init true false) c5ArrTail
    arrD07 dnbAfterArr [0x0B] (by rfl),
   c5_cell_accounting.2.1 (fun dnb s => .ok (.vmap [("NullCount", .vint 3)], dnb, s))
    2 0 0 [] (DNB.init true false) [] [("NullCount", .vint 3)] (DNB.init true false)
    [] 3 (by decide) (by rfl) (by rfl) (by decide)⟩

theorem exceptMap_ok {α β : Type} {g : α → β} {x : Except DErr α} {b : β} :
    (g <$> x) = .ok b ↔ ∃ a, x = .ok a ∧ g a = b := by
  cases x <;> simp [Functor.map, Except.map]

theorem intGet_mem {α : Type} {t : List (Int × α)} {k : Int} {v : α}
    (h : intGet t k = some v) : (k, v) ∈ t := by
  induction t with
  | nil => simp [intGet] at h
  | cons p rest ih =>
    obtain ⟨k', v'⟩ := p
    by_cases hk : k' = k
    · simp only [intGet, if_pos hk, Option.some.injEq] at h
      subst hk; subst h; exact List.mem_cons_self _ _
    · simp only [intGet, if_neg hk] at h
      exact List.mem_cons_of_mem _ (ih h)

theorem cleanTable_intSet {t : List (Int × Dict)} {k : Int} {obj : Dict}
    (h : cleanTable t) (hobj : dictContains obj "RecordTypeEnum" = false) :
    cleanTable (intSet t k obj) := by
  intro p hp
  rcases mem_intSet hp with he | he
  · rw [he]; exact hobj
  · exact h p he

theorem registerObject_clean {dnb : DNB} {ref : Int} {obj : Dict} {vals : Value}
    (h : cleanTable dnb.objects) (hobj : dictContains obj "RecordTypeEnum" = false) :
    cleanTable (registerObject dnb ref obj vals).objects :=
  cleanTable_intSet h hobj

theorem fetchObject_clean {dnb : DNB} {ref : Int} {d : Dict}
    (h : fetchObject dnb ref = .ok d) (hc : cleanTable dnb.objects) :
    dictContains d "RecordTypeEnum" = false := by
  unfold fetchObject at h
  cases hg : intGet dnb.objects ref with
  | none => rw [hg] at h; cases h
  | some d' =>
    rw [hg] at h
    simp only [Except.ok.injEq] at h
    subst h
    exact hc (ref, d') (intGet_mem hg)

theorem btParse_preserves (rec : RecParser) (hrec : PreservesClean rec)
    (bt : BinaryTypeEnum) (info : Value) : PreservesClean (btParse rec bt info) := by
  intro dnb s a dnb1 s1 h hc
  cases bt with
  | Primitive =>
    cases info with
    | vstr n =>
      simp only [btParse, exceptBind_ok, exceptMap_ok] at h
      obtain ⟨pt, hpt, ⟨vp, hvp, hfin⟩⟩ := h
      simp only [pure, Except.pure, Except.ok.injEq, Prod.mk.injEq] at hfin
      obtain ⟨-, h2, -⟩ := hfin
      rw [← h2]; exact hc
    | vnull => simp [btParse] at h
    | vbool b => simp [btParse] at h
    | vint n => simp [btParse] at h
    | vfloat b => simp [btParse] at h
    | vdec t => simp [btParse] at h
    | vlist xs => simp [btParse] at h
    | vmap d => simp [btParse] at h
  | String =>
    simp only [btParse, exceptBind_ok] at h
    obtain ⟨⟨d, dnbA, sA⟩, hr, hp⟩ := h
    simp only [pure, Except.pure, Except.ok.injEq, Prod.mk.injEq] at hp
    obtain ⟨-, h2, -⟩ := hp
    rw [← h2]
    exact hrec dnb s d dnbA sA hr hc
  | SystemClass =>
    simp only [btParse, exceptBind_ok] at h
    obtain ⟨⟨d, dnbA, sA⟩, hr, hp⟩ := h
    simp only [pure, Except.pure, Except.ok.injEq, Prod.mk.injEq] at hp
    obtain ⟨-, h2, -⟩ := hp
    rw [← h2]
    exact hrec dnb s d dnbA sA hr hc
  | Class =>
    simp only [btParse, exceptBind_ok] at h
    obtain ⟨⟨d, dnbA, sA⟩, hr, hp⟩ := h
    simp only [pure, Except.pure, Except.ok.injEq, Prod.mk.injEq] at hp
    obtain ⟨-, h2, -⟩ := hp
    rw [← h2]
    exact hrec dnb s d dnbA sA hr hc
  | Object => simp [btParse] at h
  | ObjectArray => simp [btParse] at h
  | StringArray => simp [btParse] at h
  | PrimitiveArray => simp [btParse] at h

theorem valCommonAux_preserves (rec : RecParser) (hrec : PreservesClean rec)
    (reference : Dict) :
    ∀ (n i : Nat), PreservesClean (fun dnb s => valCommonAux rec reference i n dnb s) := by
  intro n
  induction n with
  | zero =>
    intro i dnb s a dnb1 s1 h hc
    simp only [valCommonAux, Except.ok.injEq, Prod.mk.injEq] at h
    obtain ⟨-, h2, -⟩ := h
    rw [← h2]; exact hc
  | succ m ih =>
    intro i dnb s a dnb1 s1 h hc
    simp only [valCommonAux, exceptBind_ok] at h
    obtain ⟨mti, hmti, h⟩ := h
    obtain ⟨btes, hbtes, h⟩ := h
    obtain ⟨bteV, hbteV, h⟩ := h
    obtain ⟨bteName, hname, h⟩ := h
    obtain ⟨bt, hbt, h⟩ := h
    obtain ⟨infos, hinfos, h⟩ := h
    obtain ⟨info, hinfo, h⟩ := h
    obtain ⟨⟨v, dnbA, sA⟩, hbtp, h⟩ := h
    obtain ⟨⟨vs2, dnbB, sB⟩, hrecc, hpure⟩ := h
    simp only [pure, Except.pure, Except.ok.injEq, Prod.mk.injEq] at hpure
    obtain ⟨-, h2, -⟩ := hpure
    rw [← h2]
    have hcA := btParse_preserves rec hrec bt info dnb s v dnbA sA hbtp hc
    exact ih (i + 1) dnbA sA vs2 dnbB sB hrecc hcA

theorem valCommon_preserves (rec : RecParser) (hrec : PreservesClean rec)
    (reference : Dict) :
    PreservesClean (fun dnb s => valCommon rec reference dnb s) := by
  intro dnb s a dnb1 s1 h hc
  simp only [valCommon, exceptBind_ok] at h
  obtain ⟨count, hcount, h⟩ := h
  exact valCommonAux_preserves rec hrec reference count.toNat 0 dnb s a dnb1 s1 h hc

theorem classCommon_preserves (rec : RecParser) (hrec : PreservesClean rec)
    (objid : Int) (record : Dict) (reference : Option Dict)
    (hrecd : dictContains record "RecordTypeEnum" = false) :
    PreservesClean (fun dnb s => classCommon rec objid record reference dnb s) := by
  intro dnb s a dnb1 s1 h hc
  simp only [classCommon, exceptBind_ok] at h
  obtain ⟨⟨vals, dnbA, sA⟩, hval, hpure⟩ := h
  simp only [pure, Except.pure, Except.ok.injEq, Prod.mk.injEq] at hpure
  obtain ⟨-, h2, -⟩ := hpure
  rw [← h2]
  have hcA := valCommon_preserves rec hrec _ dnb s vals dnbA sA hval hc
  exact registerObject_clean hcA hrecd

theorem parse00_preserves : PreservesClean parse00 := by
  intro dnb s a dnb1 s1 h hc
  simp only [parse00, exceptBind_ok] at h
  obtain ⟨⟨r0, s0⟩, h0, h⟩ := h
  obtain ⟨⟨r1, s1'⟩, h1, h⟩ := h
  obtain ⟨⟨r2, s2⟩, h2, h⟩ := h
  obtain ⟨⟨r3, s3⟩, h3, hpure⟩ := h
  simp only [pure, Except.pure, Except.ok.injEq, Prod.mk.injEq] at hpure
  obtain ⟨-, hd, -⟩ := hpure
  rw [← hd]; exact hc

theorem parse01_preserves (rec : RecParser) (hrec : PreservesClean rec) :
    PreservesClean (parse01 rec) := by
  intro dnb s a dnb1 s1 h hc
  simp only [parse01, exceptBind_ok] at h
  obtain ⟨⟨oid, sA⟩, hoid, h⟩ := h
  obtain ⟨⟨mid, sB⟩, hmid, h⟩ := h
  obtain ⟨fetch, hfetch, h⟩ := h
  obtain ⟨objid, hobjid, h⟩ := h
  have hfc : dictContains fetch "RecordTypeEnum" = false :=
    fetchObject_clean hfetch hc
  have hbase : dictContains
      ([("ObjectId", Value.vint oid), ("MetadataId", Value.vint mid)] : Dict)
      "RecordTypeEnum" = false := by simp [dictContains, dictGet]
  have hrecd : dictContains
      (if dnb.expand then
        dictUpdate [("ObjectId", Value.vint oid), ("MetadataId", Value.vint mid)] fetch
       else [("ObjectId", Value.vint oid), ("MetadataId", Value.vint mid)])
      "RecordTypeEnum" = false := by
    cases hx : dnb.expand
    · simpa [hx] using hbase
    · simp only [hx, if_pos]
      exact dictContains_dictUpdate_false _ _ _ hbase hfc
  exact classCommon_preserves rec hrec objid _ _ hrecd dnb sB a dnb1 s1 h hc

theorem parse02_preserves : PreservesClean parse02 := by
  intro dnb s a dnb1 s1 h hc
  simp only [parse02, exceptBind_ok] at h
  obtain ⟨⟨ci, sA⟩, hci, h⟩ := h
  obtain ⟨objid, hobjid, hpure⟩ := h
  simp only [pure, Except.pure, Except.ok.injEq, Prod.mk.injEq] at hpure
  obtain ⟨-, hd, -⟩ := hpure
  rw [← hd]
  exact registerObject_clean hc (by simp [dictContains, dictGet])

theorem parse03_preserves : PreservesClean parse03 := by
  intro dnb s a dnb1 s1 h hc
  simp only [parse03, exceptBind_ok] at h
  obtain ⟨⟨ci, sA⟩, hci, h⟩ := h
  obtain ⟨⟨lib, sB⟩, hlib, h⟩ := h
  obtain ⟨objid, hobjid, hpure⟩ := h
  simp only [pure, Except.pure, Except.ok.injEq, Prod.mk.injEq] at hpure
  obtain ⟨-, hd, -⟩ := hpure
  rw [← hd]
  exact registerObject_clean hc (by simp [dictContains, dictGet])

theorem matCommon_preserves (rec : RecParser) (hrec : PreservesClean rec)
    (system : Bool) : PreservesClean (matCommon rec system) := by
  intro dnb s a dnb1 s1 h hc
  cases system with
  | true =>
    simp only [matCommon, exceptBind_ok] at h
    obtain ⟨⟨ci, sA⟩, hci, h⟩ := h
    obtain ⟨count, hcount, h⟩ := h
    obtain ⟨⟨mti, sB⟩, hmti, h⟩ := h
    rw [if_pos (show True from trivial)] at h
    simp only [exceptBind_ok] at h
    obtain ⟨objid, hobjid, h⟩ := h
    exact classCommon_preserves rec hrec objid _ none
      (by simp [dictContains, dictGet]) dnb _ a dnb1 s1 h hc
  | false =>
    simp only [matCommon, exceptBind_ok] at h
    obtain ⟨⟨ci, sA⟩, hci, h⟩ := h
    obtain ⟨count, hcount, h⟩ := h
    obtain ⟨⟨mti, sB⟩, hmti, h⟩ := h
    have hcond : ¬(false = true) := by decide
    rw [if_neg hcond] at h
    simp only [exceptBind_ok] at h
    obtain ⟨⟨lid, sC⟩, hlid, h⟩ := h
    obtain ⟨objid, hobjid, h⟩ := h
    exact classCommon_preserves rec hrec objid _ none
      (by simp [dictContains, dictGet]) dnb _ a dnb1 s1 h hc

theorem parse06_preserves : PreservesClean parse06 := by
  intro dnb s a dnb1 s1 h hc
  simp only [parse06, exceptBind_ok] at h
  obtain ⟨⟨oid, sA⟩, hoid, h⟩ := h
  obtain ⟨⟨v, sB⟩, hv, hpure⟩ := h
  simp only [pure, Except.pure, Except.ok.injEq, Prod.mk.injEq] at hpure
  obtain ⟨-, hd, -⟩ := hpure
  rw [← hd]
  exact registerObject_clean hc (by simp [dictContains, dictGet])

theorem readCells_preserves
    (elemP : DNB → Bytes → Except DErr (Value × DNB × Bytes))
    (hel : PreservesClean elemP) (total : Int) :
    ∀ (fuel : Nat) (i : Int) (acc : List Value),
      PreservesClean (fun dnb s => readCells elemP total fuel i acc dnb s) := by
  intro fuel
  induction fuel with
  | zero => intro i acc dnb s a dnb1 s1 h hc; simp [readCells] at h
  | succ nf ih =>
    intro i acc dnb s a dnb1 s1 h hc
    by_cases hi : i < total
    · simp only [readCells, if_pos hi, exceptBind_ok] at h
      obtain ⟨⟨v, dnbA, sA⟩, hE, hcs⟩ := h
      have hcA := hel dnb s v dnbA sA hE hc
      cases v with
      | vmap d =>
        simp only [cellStep] at hcs
        cases hNC : dictGet d "NullCount" with
        | none =>
          rw [hNC] at hcs
          simp only [nullCountStep] at hcs
          by_cases hov : i + 1 > total
          · rw [if_pos hov] at hcs; cases hcs
          · rw [if_neg hov] at hcs
            exact ih (i + 1) (acc ++ [.vmap d]) dnbA sA a dnb1 s1 hcs hcA
        | some nc =>
          rw [hNC] at hcs
          cases nc with
          | vint m =>
            simp only [nullCountStep] at hcs
            by_cases hov : i + m > total
            · rw [if_pos hov] at hcs; cases hcs
            · rw [if_neg hov] at hcs
              exact ih (i + m) (acc ++ [.vmap d]) dnbA sA a dnb1 s1 hcs hcA
          | vnull => simp [nullCountStep] at hcs
          | vbool b => simp [nullCountStep] at hcs
          | vfloat b => simp [nullCountStep] at hcs
          | vdec t => simp [nullCountStep] at hcs
          | vstr t => simp [nullCountStep] at hcs
          | vlist xs => simp [nullCountStep] at hcs
          | vmap d2 => simp [nullCountStep] at hcs
      | vnull => simp only [cellStep] at hcs; exact ih i acc dnbA sA a dnb1 s1 hcs hcA
      | vbool b => simp only [cellStep] at hcs; exact ih i acc dnbA sA a dnb1 s1 hcs hcA
      | vint m => simp only [cellStep] at hcs; exact ih i acc dnbA sA a dnb1 s1 hcs hcA
      | vfloat b => simp only [cellStep] at hcs; exact ih i acc dnbA sA a dnb1 s1 hcs hcA
      | vdec t => simp only [cellStep] at hcs; exact ih i acc dnbA sA a dnb1 s1 hcs hcA
      | vstr t => simp only [cellStep] at hcs; exact ih i acc dnbA sA a dnb1 s1 hcs hcA
      | vlist xs => simp only [cellStep] at hcs; exact ih i acc dnbA sA a dnb1 s1 hcs hcA
    · simp only [readCells, if_neg hi, Except.ok.injEq, Prod.mk.injEq] at h
      obtain ⟨-, hd, -⟩ := h
      rw [← hd]; exact hc

theorem parse07_preserves (rec : RecParser) (hrec : PreservesClean rec)
    (fuel : Nat) : PreservesClean (parse07 rec fuel) := by
  intro dnb s a dnb1 s1 h hc
  simp only [parse07, exceptBind_ok] at h
  obtain ⟨⟨oid, sA⟩, hoid, h⟩ := h
  obtain ⟨⟨bb, sB⟩, hbb, h⟩ := h
  obtain ⟨bat, hbat, h⟩ := h
  obtain ⟨⟨rank, sC⟩, hrank, h⟩ := h
  obtain ⟨⟨lengths, sD⟩, hlen, h⟩ := h
  cases hbnd : bat.hasBounds with
  | true =>
    rw [if_pos hbnd] at h
    simp only [exceptBind_ok] at h
    obtain ⟨⟨bounds, sE⟩, hbounds, h⟩ := h
    obtain ⟨⟨btb, sF⟩, hbtb, h⟩ := h
    obtain ⟨bt, hbt, h⟩ := h
    obtain ⟨⟨atypeinfo, sG⟩, hinfo, h⟩ := h
    by_cases hsingle : bat.name = "Single"
    · rw [if_pos hsingle] at h
      simp only [exceptBind_ok] at h
      obtain ⟨⟨vals, dnbA, sH⟩, hcells, hpure⟩ := h
      simp only [pure, Except.pure, Except.ok.injEq, Prod.mk.injEq] at hpure
      obtain ⟨-, hd, -⟩ := hpure
      rw [← hd]
      have hcA := readCells_preserves (btParse rec bt atypeinfo)
        (btParse_preserves rec hrec bt atypeinfo) _ fuel 0 [] dnb sG vals dnbA sH
        hcells hc
      exact registerObject_clean hcA (by simp [dictContains, dictGet])
    · rw [if_neg hsingle] at h
      cases h
  | false =>
    rw [if_neg (by simp [hbnd])] at h
    simp only [exceptBind_ok] at h
    obtain ⟨⟨bounds, sE⟩, hbounds, h⟩ := h
    obtain ⟨⟨btb, sF⟩, hbtb, h⟩ := h
    obtain ⟨bt, hbt, h⟩ := h
    obtain ⟨⟨atypeinfo, sG⟩, hinfo, h⟩ := h
    by_cases hsingle : bat.name = "Single"
    · rw [if_pos hsingle] at h
      simp only [exceptBind_ok] at h
      obtain ⟨⟨vals, dnbA, sH⟩, hcells, hpure⟩ := h
      simp only [pure, Except.pure, Except.ok.injEq, Prod.mk.injEq] at hpure
      obtain ⟨-, hd, -⟩ := hpure
      rw [← hd]
      have hcA := readCells_preserves (btParse rec bt atypeinfo)
        (btParse_preserves rec hrec bt atypeinfo) _ fuel 0 [] dnb sG vals dnbA sH
        hcells hc
      exact registerObject_clean hcA (by simp [dictContains, dictGet])
    · rw [if_neg hsingle] at h
      cases h

theorem parse09_preserves : PreservesClean parse09 := by
  intro dnb s a dnb1 s1 h hc
  simp only [parse09, exceptBind_ok] at h
  obtain ⟨⟨idRef, sA⟩, hid, hpure⟩ := h
  simp only [pure, Except.pure, Except.ok.injEq, Prod.mk.injEq] at hpure
  obtain ⟨-, hd, -⟩ := hpure
  rw [← hd]
  exact hc

theorem parse12_preserves : PreservesClean parse12 := by
  intro dnb s a dnb1 s1 h hc
  simp only [parse12, exceptBind_ok] at h
  obtain ⟨⟨lib, sA⟩, hlib, hbad⟩ := h
  cases hbad

theorem parse13_preserves : PreservesClean parse13 := by
  intro dnb s a dnb1 s1 h hc
  simp only [parse13, exceptBind_ok] at h
  obtain ⟨⟨b, sA⟩, hb, hpure⟩ := h
  simp only [pure, Except.pure, Except.ok.injEq, Prod.mk.injEq] at hpure
  obtain ⟨-, hd, -⟩ := hpure
  rw [← hd]
  exact hc

theorem parse14_preserves : PreservesClean parse14 := by
  intro dnb s a dnb1 s1 h hc
  simp only [parse14, exceptBind_ok] at h
  obtain ⟨⟨n, sA⟩, hb, hpure⟩ := h
  simp only [pure, Except.pure, Except.ok.injEq, Prod.mk.injEq] at hpure
  obtain ⟨-, hd, -⟩ := hpure
  rw [← hd]
  exact hc

theorem parseDispatch_preserves (rec : RecParser) (hrec : PreservesClean rec)
    (fuel : Nat) (rt : RecordTypeEnum) :
    PreservesClean (parseDispatch rec fuel rt) := by
  intro dnb s a dnb1 s1 h hc
  cases rt with
  | SerializedStreamHeader => exact parse00_preserves dnb s a dnb1 s1 h hc
  | ClassWithId => exact parse01_preserves rec hrec dnb s a dnb1 s1 h hc
  | SystemClassWithMembers => exact parse02_preserves dnb s a dnb1 s1 h hc
  | ClassWithMembers => exact parse03_preserves dnb s a dnb1 s1 h hc
  | SystemClassWithMembersAndTypes =>
    exact matCommon_preserves rec hrec true dnb s a dnb1 s1 h hc
  | ClassWithMembersAndTypes =>
    exact matCommon_preserves rec hrec false dnb s a dnb1 s1 h hc
  | BinaryObjectString => exact parse06_preserves dnb s a dnb1 s1 h hc
  | BinaryArray => exact parse07_preserves rec hrec fuel dnb s a dnb1 s1 h hc
  | MemberReference => exact parse09_preserves dnb s a dnb1 s1 h hc
  | ObjectNull =>
    simp only [parseDispatch, Except.ok.injEq, Prod.mk.injEq] at h
    obtain ⟨-, hd, -⟩ := h
    rw [← hd]; exact hc
  | MessageEnd =>
    simp only [parseDispatch, Except.ok.injEq, Prod.mk.injEq] at h
    obtain ⟨-, hd, -⟩ := h
    rw [← hd]; exact hc
  | BinaryLibrary => exact parse12_preserves dnb s a dnb1 s1 h hc
  | ObjectNullMultiple256 => exact parse13_preserves dnb s a dnb1 s1 h hc
  | ObjectNullMultiple => exact parse14_preserves dnb s a dnb1 s1 h hc
  | MemberPrimitiveTyped => simp [parseDispatch] at h
  | ArraySinglePrimitive => simp [parseDispatch] at h
  | ArraySingleObject => simp [parseDispatch] at h
  | ArraySingleString => simp [parseDispatch] at h
  | ArrayOfType => simp [parseDispatch] at h
  | MethodCall => simp [parseDispatch] at h
  | MethodReturn => simp [parseDispatch] at h

theorem recordStep_preserves (rec : RecParser) (hrec : PreservesClean rec)
    (fuel : Nat) : PreservesClean (recordStep rec fuel) := by
  intro dnb s a dnb1 s1 h hc
  simp only [recordStep, exceptBind_ok] at h
  obtain ⟨⟨b, sA⟩, hb, h⟩ := h
  obtain ⟨rt, hrt, h⟩ := h
  obtain ⟨⟨parsed, dnbA, sB⟩, hdisp, hpure⟩ := h
  simp only [pure, Except.pure, Except.ok.injEq, Prod.mk.injEq] at hpure
  obtain ⟨-, hd, -⟩ := hpure
  rw [← hd]
  exact parseDispatch_preserves rec hrec fuel rt dnb sA parsed dnbA sB hdisp hc

theorem recordP_preserves : ∀ fuel : Nat, PreservesClean (recordP fuel) := by
  intro fuel
  induction fuel with
  | zero => intro dnb s a dnb1 s1 h hc; simp [recordP] at h
  | succ n ih =>
    intro dnb s a dnb1 s1 h hc
    exact recordStep_preserves (recordP n) ih n dnb s a dnb1 s1 h hc

theorem parseLoop_preserves : ∀ fuel : Nat, PreservesClean (parseLoop fuel) := by
  intro fuel
  induction fuel with
  | zero => intro dnb s a dnb1 s1 h hc; simp [parseLoop] at h
  | succ n ih =>
    intro dnb s a dnb1 s1 h hc
    simp only [parseLoop] at h
    cases hr : recordP (n + 1) dnb s with
    | error e =>
      rw [hr] at h
      cases hst : dnb.strict with
      | true => rw [hst] at h; simp at h
      | false =>
        rw [hst] at h
        simp only [Bool.false_eq_true, if_false, Except.ok.injEq, Prod.mk.injEq] at h
        obtain ⟨-, hd, -⟩ := h
        rw [← hd]; exact hc
    | ok t =>
      obtain ⟨r, dnbA, sA⟩ := t
      rw [hr] at h
      simp only at h
      have hcA : cleanTable dnbA.objects :=
        recordP_preserves (n + 1) dnb s r dnbA sA hr hc
      by_cases hme : recMessageEnd r
      · rw [if_pos hme] at h
        simp only [Except.ok.injEq, Prod.mk.injEq] at h
        obtain ⟨-, hd, -⟩ := h
        rw [← hd]
        exact hcA
      · rw [if_neg hme] at h
        exact ih _ sA a dnb1 s1 h hcA

/-- C10: a full `parse()` run leaves ObjectTable snapshots that never
contain the `RecordTypeEnum` key — registration happens on the handler's
dict before `Stream.record` adds the variant tag to its fresh copy — and
consequently `dict.update` with any such snapshot leaves the referring
record's `RecordTypeEnum` entry untouched (backfill's field-wise
overlay). -/
theorem c10_snapshots_lack_record_type
    (fuel : Nat) (strict expand : Bool) (s : Bytes)
    (recs : List Dict) (dnbF : DNB) (rest : Bytes)
    (h : dnbParse fuel strict expand s = .ok (recs, dnbF, rest)) :
    cleanTable dnbF.objects ∧
    (∀ p ∈ dnbF.objects, ∀ refd : Dict,
      dictGet (dictUpdate refd p.2) "RecordTypeEnum"
        = dictGet refd "RecordTypeEnum") := by
  have hclean : cleanTable dnbF.objects :=
    parseLoop_preserves fuel (DNB.init strict expand) s recs dnbF rest h
      (by intro p hp; simp [DNB.init] at hp)
  refine ⟨hclean, ?_⟩
  intro p hp refd
  exact dictGet_dictUpdate_of_not_contains refd p.2 "RecordTypeEnum" (hclean p hp)

theorem c10_snapshots_lack_record_type_witness :
    cleanTable dnbC2Final.objects ∧
    (∀ p ∈ dnbC2Final.objects, ∀ refd : Dict,
      dictGet (dictUpdate refd p.2) "RecordTypeEnum"
        = dictGet refd "RecordTypeEnum") :=
  c10_snapshots_lack_record_type 32 true false c2Bytes [bosD, refD, endD]
    dnbC2Final [] (by rfl)

theorem endOkPy_iff (r : List Char) : endOkPy r = true ↔ r = [] ∨ r = ['\n'] := by
  cases r with
  | nil => simp [endOkPy]
  | cons c t => simp [endOkPy, List.isEmpty_iff]

theorem endOkSpec_iff (r : List Char) : endOkSpec r = true ↔ r = [] := by
  simp [endOkSpec, List.isEmpty_iff]

theorem isDig_not_dash {c : Char} (h : isDig c = true) : ¬ c = '-' := by
  intro hc; subst hc; simp [isDig] at h

theorem takeWhile_all_dig {l : List Char} (h : ∀ c ∈ l, isDig c = true) :
    l.takeWhile isDig = l := by
  induction l with
  | nil => rfl
  | cons c t ih =>
    rw [List.takeWhile_cons, if_pos (h c (List.mem_cons_self _ _)),
      ih (fun x hx => h x (List.mem_cons_of_mem _ hx))]

theorem dropWhile_all_dig {l : List Char} (h : ∀ c ∈ l, isDig c = true) :
    l.dropWhile isDig = [] := by
  induction l with
  | nil => rfl
  | cons c t ih =>
    rw [List.dropWhile_cons, if_pos (h c (List.mem_cons_self _ _)),
      ih (fun x hx => h x (List.mem_cons_of_mem _ hx))]

theorem takeWhile_append_dig {d b : List Char} (h : ∀ c ∈ d, isDig c = true) :
    (d ++ b).takeWhile isDig = d ++ b.takeWhile isDig := by
  induction d with
  | nil => rfl
  | cons c t ih =>
    rw [List.cons_append, List.takeWhile_cons, if_pos (h c (List.mem_cons_self _ _)),
      ih (fun x hx => h x (List.mem_cons_of_mem _ hx)), List.cons_append]

theorem dropWhile_append_dig {d b : List Char} (h : ∀ c ∈ d, isDig c = true) :
    (d ++ b).dropWhile isDig = b.dropWhile isDig := by
  induction d with
  | nil => rfl
  | cons c t ih =>
    rw [List.cons_append, List.dropWhile_cons, if_pos (h c (List.mem_cons_self _ _)),
      ih (fun x hx => h x (List.mem_cons_of_mem _ hx))]

theorem dropSign_dash (X : List Char) : dropSign ('-' :: X) = X := by
  simp [dropSign]

theorem dropSign_digit_head {x : Char} {xs : List Char} (h : isDig x = true) :
    dropSign (x :: xs) = x :: xs := by
  simp [dropSign, if_neg (isDig_not_dash h)]

theorem decAccept_iff (endOk : List Char → Bool) (cs : List Char) :
    decAccept endOk cs = true ↔
      (dropSign cs).takeWhile isDig ≠ [] ∧
      fracCheck endOk ((dropSign cs).dropWhile isDig) = true := by
  by_cases h : ((dropSign cs).takeWhile isDig).isEmpty
  · simp [decAccept, h, List.isEmpty_iff.mp h]
  · simp only [decAccept, h, if_false, Bool.if_false_left]
    constructor
    · intro hf
      exact ⟨fun hn => h (by simp [hn]), hf⟩
    · intro ⟨_, hf⟩
      exact hf

theorem fracCheck_spec_iff (r1 : List Char) :
    fracCheck endOkSpec r1 = true ↔
      r1 = [] ∨ ∃ t, r1 = '.' :: t ∧ t.takeWhile isDig ≠ [] ∧ t.dropWhile isDig = [] := by
  cases r1 with
  | nil => simp [fracCheck, endOkSpec]
  | cons c t =>
    by_cases hc : c = '.'
    · subst hc
      simp only [fracCheck, if_pos rfl]
      constructor
      · intro h
        rcases Bool.or_eq_true_iff.mp h with h1 | h1
        · obtain ⟨h2, h3⟩ := Bool.and_eq_true_iff.mp h1
          refine Or.inr ⟨t, rfl, ?_, ?_⟩
          · intro hn; rw [hn] at h2; simp at h2
          · exact List.isEmpty_iff.mp (by simpa [endOkSpec] using h3)
        · simp [endOkSpec] at h1
      · rintro (h | ⟨t2, ht2, h2, h3⟩)
        · cases h
        · have ht' : t2 = t := by
            injection ht2 with h1 h2
            exact h2.symm
          subst ht'
          apply Bool.or_eq_true_iff.mpr
          refine Or.inl (Bool.and_eq_true_iff.mpr ⟨by simp [h2], by simp [endOkSpec, h3]⟩)
    · simp only [fracCheck, if_neg hc]
      constructor
      · intro h
        simp [endOkSpec] at h
      · rintro (h | ⟨t2, ht2, -, -⟩)
        · cases h
        · exact absurd (by injection ht2) hc

theorem fracCheck_py_iff (r1 : List Char) :
    fracCheck endOkPy r1 = true ↔
      (r1 = [] ∨ r1 = ['\n']) ∨
      ∃ t, r1 = '.' :: t ∧ t.takeWhile isDig ≠ [] ∧
        (t.dropWhile isDig = [] ∨ t.dropWhile isDig = ['\n']) := by
  cases r1 with
  | nil => simp [fracCheck, endOkPy]
  | cons c t =>
    by_cases hc : c = '.'
    · subst hc
      simp only [fracCheck, if_pos rfl]
      constructor
      · intro h
        rcases Bool.or_eq_true_iff.mp h with h1 | h1
        · obtain ⟨h2, h3⟩ := Bool.and_eq_true_iff.mp h1
          refine Or.inr ⟨t, rfl, ?_, (endOkPy_iff _).mp h3⟩
          intro hn; rw [hn] at h2; simp at h2
        · rcases (endOkPy_iff _).mp h1 with h2 | h2
          · cases h2
          · have hcc : ('.' : Char) = '\n' := by injection h2
            exact absurd hcc (by decide)
      · rintro (h | ⟨t2, ht2, h2, h3⟩)
        · rcases h with h | h
          · cases h
          · have hcc : ('.' : Char) = '\n' := by injection h
            exact absurd hcc (by decide)
        · have ht' : t2 = t := by
            injection ht2 with e1 e2
            exact e2.symm
          subst ht'
          exact Bool.or_eq_true_iff.mpr
            (Or.inl (Bool.and_eq_true_iff.mpr ⟨by simp [h2], (endOkPy_iff _).mpr h3⟩))
    · simp only [fracCheck, if_neg hc]
      constructor
      · intro h
        exact Or.inl ((endOkPy_iff _).mp h)
      · rintro (h | ⟨t2, ht2, -, -⟩)
        · exact (endOkPy_iff _).mpr h
        · have hcc : c = '.' := by injection ht2
          exact absurd hcc hc

theorem decAccept_spec_to_py (cs : List Char) (h : decAccept endOkSpec cs = true) :
    decAccept endOkPy cs = true := by
  obtain ⟨hne, hfc⟩ := (decAccept_iff _ _).mp h
  refine (decAccept_iff _ _).mpr ⟨hne, ?_⟩
  rcases (fracCheck_spec_iff _).mp hfc with h1 | ⟨t, ht, h2, h3⟩
  · exact (fracCheck_py_iff _).mpr (Or.inl (Or.inl h1))
  · exact (fracCheck_py_iff _).mpr (Or.inr ⟨t, ht, h2, Or.inl h3⟩)

theorem decAccept_spec_append_newline (cs : List Char)
    (h : decAccept endOkSpec cs = true) :
    decAccept endOkPy (cs ++ ['\n']) = true := by
  obtain ⟨hne, hfc⟩ := (decAccept_iff _ _).mp h
  have hcs : cs ≠ [] := by
    intro hn; subst hn; simp [dropSign] at hne
  have hds : dropSign (cs ++ ['\n']) = dropSign cs ++ ['\n'] := by
    rcases cs with _ | ⟨c, t⟩
    · exact absurd rfl hcs
    · by_cases hcq : c = '-'
      · subst hcq; simp [dropSign]
      · simp [dropSign, hcq]
  have hall : ∀ c ∈ (dropSign cs).takeWhile isDig, isDig c = true :=
    fun c hc => List.mem_takeWhile_imp hc
  rcases (fracCheck_spec_iff _).mp hfc with h1 | ⟨t2, ht2, h2, h3⟩
  · have hu_eq : dropSign cs = (dropSign cs).takeWhile isDig := by
      conv_lhs => rw [← List.takeWhile_append_dropWhile isDig (dropSign cs)]
      rw [h1, List.append_nil]
    have hallu : ∀ c ∈ dropSign cs, isDig c = true := by
      intro c hc
      exact hall c (hu_eq ▸ hc)
    refine (decAccept_iff _ _).mpr ⟨?_, ?_⟩
    · rw [hds, takeWhile_append_dig hallu]
      have hz : List.takeWhile isDig ['\n'] = [] := by rfl
      rw [hz, List.append_nil]
      intro hn
      exact hne (by rw [← hu_eq] at hne ⊢; exact hn)
    · rw [hds, dropWhile_append_dig hallu]
      have hz : List.dropWhile isDig ['\n'] = ['\n'] := by rfl
      rw [hz]
      exact (fracCheck_py_iff _).mpr (Or.inl (Or.inr rfl))
  · have ht2all : ∀ c ∈ t2, isDig c = true := by
      have he : t2 = t2.takeWhile isDig := by
        conv_lhs => rw [← List.takeWhile_append_dropWhile isDig t2]
        rw [h3, List.append_nil]
      intro c hc
      exact List.mem_takeWhile_imp (he ▸ hc)
    have hu_eq : dropSign cs = (dropSign cs).takeWhile isDig ++ '.' :: t2 := by
      conv_lhs => rw [← List.takeWhile_append_dropWhile isDig (dropSign cs)]
      rw [ht2]
    refine (decAccept_iff _ _).mpr ⟨?_, ?_⟩
    · rw [hds, hu_eq, List.append_assoc, takeWhile_append_dig hall]
      have h4 : List.takeWhile isDig ('.' :: t2 ++ ['\n']) = [] := by
        rw [List.cons_append, List.takeWhile_cons, if_neg (by decide)]
      rw [h4, List.append_nil]
      exact hne
    · rw [hds, hu_eq, List.append_assoc, dropWhile_append_dig hall]
      have h4 : List.dropWhile isDig ('.' :: t2 ++ ['\n']) = '.' :: (t2 ++ ['\n']) := by
        rw [List.cons_append, List.dropWhile_cons, if_neg (by decide)]
      rw [h4]
      refine (fracCheck_py_iff _).mpr (Or.inr ⟨t2 ++ ['\n'], rfl, ?_, ?_⟩)
      · rw [takeWhile_append_dig ht2all]
        have hz : List.takeWhile isDig ['\n'] = [] := by rfl
        rw [hz, List.append_nil]
        intro hn
        subst hn
        exact h2 rfl
      · rw [dropWhile_append_dig ht2all]
        exact Or.inr (by rfl)

theorem strip_newline_core (cs X : List Char)
    (hXhead : ∃ x xs, X = x :: xs ∧ isDig x = true)
    (hu : dropSign cs = X ++ ['\n'])
    (hX : decAccept endOkSpec X = true) :
    ∃ core, cs = core ++ ['\n'] ∧ decAccept endOkSpec core = true := by
  rcases cs with _ | ⟨c, t⟩
  · simp [dropSign] at hu
  · by_cases hcq : c = '-'
    · subst hcq
      rw [dropSign_dash] at hu
      refine ⟨'-' :: X, ?_, ?_⟩
      · rw [hu, List.cons_append]
      · obtain ⟨hne2, hfc2⟩ := (decAccept_iff _ _).mp hX
        obtain ⟨x, xs, hXe, hxd⟩ := hXhead
        have hdX : dropSign X = X := by rw [hXe]; exact dropSign_digit_head hxd
        rw [hdX] at hne2 hfc2
        refine (decAccept_iff _ _).mpr ?_
        rw [dropSign_dash]
        exact ⟨hne2, hfc2⟩
    · have hd : dropSign (c :: t) = c :: t := by simp [dropSign, hcq]
      rw [hd] at hu
      exact ⟨X, hu, hX⟩

theorem decAccept_py_to_spec (cs : List Char) (h : decAccept endOkPy cs = true) :
    decAccept endOkSpec cs = true ∨
      ∃ core, cs = core ++ ['\n'] ∧ decAccept endOkSpec core = true := by
  obtain ⟨hne, hfc⟩ := (decAccept_iff _ _).mp h
  have hall : ∀ c ∈ (dropSign cs).takeWhile isDig, isDig c = true :=
    fun c hc => List.mem_takeWhile_imp hc
  rcases (fracCheck_py_iff _).mp hfc with (h1 | h1) | ⟨t2, ht2, h2, h3⟩
  · exact Or.inl ((decAccept_iff _ _).mpr
      ⟨hne, (fracCheck_spec_iff _).mpr (Or.inl h1)⟩)
  · refine Or.inr ?_
    have hu : dropSign cs = (dropSign cs).takeWhile isDig ++ ['\n'] := by
      conv_lhs => rw [← List.takeWhile_append_dropWhile isDig (dropSign cs)]
      rw [h1]
    rcases hd1 : (dropSign cs).takeWhile isDig with _ | ⟨x, xs⟩
    · exact absurd hd1 hne
    · have hxd : isDig x = true := by
        refine List.mem_takeWhile_imp (l := dropSign cs) ?_
        rw [hd1]; exact List.mem_cons_self _ _
      have hX : decAccept endOkSpec ((dropSign cs).takeWhile isDig) = true := by
        have hdd : dropSign ((dropSign cs).takeWhile isDig)
            = (dropSign cs).takeWhile isDig := by
          rw [hd1]; exact dropSign_digit_head hxd
        refine (decAccept_iff _ _).mpr ?_
        rw [hdd, takeWhile_all_dig hall, dropWhile_all_dig hall]
        exact ⟨hne, (fracCheck_spec_iff _).mpr (Or.inl rfl)⟩
      exact strip_newline_core cs _ ⟨x, xs, hd1, hxd⟩ hu hX
  · have ht2all : ∀ c ∈ t2.takeWhile isDig, isDig c = true :=
      fun c hc => List.mem_takeWhile_imp hc
    rcases h3 with h3 | h3
    · refine Or.inl ((decAccept_iff _ _).mpr
        ⟨hne, (fracCheck_spec_iff _).mpr (Or.inr ⟨t2, ht2, h2, h3⟩)⟩)
    · refine Or.inr ?_
      have ht2d : t2 = t2.takeWhile isDig ++ ['\n'] := by
        conv_lhs => rw [← List.takeWhile_append_dropWhile isDig t2]
        rw [h3]
      have hu : dropSign cs
          = ((dropSign cs).takeWhile isDig ++ '.' :: t2.takeWhile isDig) ++ ['\n'] := by
        conv_lhs => rw [← List.takeWhile_append_dropWhile isDig (dropSign cs)]
        rw [ht2, List.append_assoc, List.cons_append]
        conv_lhs => rw [ht2d]
      rcases hd1 : (dropSign cs).takeWhile isDig with _ | ⟨x, xs⟩
      · exact absurd hd1 hne
      · have hxd : isDig x = true := by
          refine List.mem_takeWhile_imp (l := dropSign cs) ?_
          rw [hd1]; exact List.mem_cons_self _ _
        have hXhead : ∃ y ys,
            (dropSign cs).takeWhile isDig ++ '.' :: t2.takeWhile isDig = y :: ys ∧
            isDig y = true := by
          rw [hd1]
          exact ⟨x, xs ++ '.' :: t2.takeWhile isDig, by rw [List.cons_append], hxd⟩
        have hX : decAccept endOkSpec
            ((dropSign cs).takeWhile isDig ++ '.' :: t2.takeWhile isDig) = true := by
          obtain ⟨y, ys, hye, hyd⟩ := hXhead
          have hdd : dropSign
              ((dropSign cs).takeWhile isDig ++ '.' :: t2.takeWhile isDig)
              = (dropSign cs).takeWhile isDig ++ '.' :: t2.takeWhile isDig := by
            rw [hye]; exact dropSign_digit_head hyd
          refine (decAccept_iff _ _).mpr ?_
          rw [hdd, takeWhile_append_dig hall, dropWhile_append_dig hall,
            List.takeWhile_cons, if_neg (by decide),
            List.dropWhile_cons, if_neg (by decide), List.append_nil]
          refine ⟨hne, (fracCheck_spec_iff _).mpr
            (Or.inr ⟨t2.takeWhile isDig, rfl, ?_, dropWhile_all_dig ht2all⟩)⟩
          rw [takeWhile_all_dig ht2all]
          exact h2
        exact strip_newline_core cs _ hXhead hu hX

/-- C8 (amended): `Stream.decimal`'s acceptance — embedded as
`decAccept endOkPy`, the truthiness of `re.match` with Python's `$` — holds
exactly on the texts matching the spec's regex `^-?\d+(\.\d+)?$` under full
anchoring, or such a text followed by one final newline (first conjunct).
The concrete conjuncts: `"12.345"` decodes to `Decimal("12.345")` with
`MalformedDecimal` for `"12."`, and a `Decimal` scalar crunches to
itself. -/
theorem c8_decimal_amended :
    (∀ cs : List Char, decAccept endOkPy cs = true ↔
      (decAccept endOkSpec cs = true ∨
       ∃ core, cs = core ++ ['\n'] ∧ decAccept endOkSpec core = true)) ∧
    Stream.decimal [6, 0x31, 0x32, 0x2E, 0x33, 0x34, 0x35] = .ok (.vdec "12.345", []) ∧
    Stream.decimal [3, 0x31, 0x32, 0x2E] = .error .malformedDecimal ∧
    crunchV 1 (DNB.init true false) (.vdec "12.345") = .ok (.vdec "12.345") := by
  refine ⟨?_, by rfl, by rfl, by rfl⟩
  intro cs
  constructor
  · exact decAccept_py_to_spec cs
  · rintro (h | ⟨core, hcs, hcore⟩)
    · exact decAccept_spec_to_py cs h
    · rw [hcs]
      exact decAccept_spec_append_newline core hcore

theorem c8_decimal_amended_witness :
    decAccept endOkPy ("12\n".data) = true ∧ decAccept endOkPy ("12".data) = true :=
  ⟨(c8_decimal_amended.1 "12\n".data).mpr
    (Or.inr ⟨"12".data, by rfl, by rfl⟩),
   (c8_decimal_amended.1 "12".data).mpr (Or.inl (by rfl))⟩
